import Mathlib

/-!
Verification of the dbt-lint-yaml YAML model patcher.

This file gives a shallow embedding of the two scripts
`src/scripts/ruamel_model_changes.py` (batch column/model description
updates) and `src/scripts/ruamel_normalize_layout.py` (model relocation),
and proves/refutes the frozen specification claims about them.

Modelling conventions:
* YAML values are `YVal` (null, string, sequence, mapping); mappings are
  insertion-ordered association lists with unique keys, matching the
  `ruamel.yaml` `CommentedMap` round-trip representation (ruamel rejects
  duplicate keys).
* The filesystem is an association list from path to the parsed YAML value
  of the file's content (`FS`).  Writing a file is `mset`, deleting is
  `mpop`; formatting/comments are opaque passthrough state of the library
  and are not modelled beyond content identity.  Parent-directory creation
  (`mkdir`) has no observable effect in this model.
* Python in-place mutation is rendered as explicit state passing; every
  function that mutates its argument returns the updated value.
* Errors: `PErr.notFound` and `PErr.structureErr` model the scripts'
  `PatchError`/`LayoutError` messages, classified per the spec's taxonomy
  (`NotFoundError`/`StructureError`); `PErr.crash` models an unhandled
  Python exception (e.g. `AttributeError`), which `main` does not catch.
  A function returning `.error` performs no filesystem effect, so an
  errored operation always leaves the filesystem unchanged.
-/

namespace DbtLintYaml

/-- A YAML value as loaded by ruamel.yaml: null, scalar string, sequence,
or (ordered) mapping with string keys. -/
inductive YVal where
  | nullV
  | str (s : String)
  | seq (xs : List YVal)
  | map (kvs : List (String × YVal))

/-- Python truthiness of a loaded YAML value (`or {}`, `if not models`,
...): `None`, `""`, `[]` and `{}` are falsy. -/
def yFalsy : YVal → Bool
  | .nullV => true
  | .str s => s.isEmpty
  | .seq xs => xs.isEmpty
  | .map kvs => kvs.isEmpty

def yFalsyOpt : Option YVal → Bool
  | none => true
  | some v => yFalsy v

/-- Python type name, used in `ensure_sequence`'s error message. -/
def pyTypeName : YVal → String
  | .nullV => "NoneType"
  | .str _ => "str"
  | .seq _ => "CommentedSeq"
  | .map _ => "CommentedMap"

/-- `d.get(k)`: first binding of `k` in an ordered mapping. -/
def mget : List (String × YVal) → String → Option YVal
  | [], _ => none
  | (k, v) :: rest, key => if k = key then some v else mget rest key

/-- `d[k] = v`: replace the binding of `k` in place, else append it. -/
def mset : List (String × YVal) → String → YVal → List (String × YVal)
  | [], key, v => [(key, v)]
  | (k, w) :: rest, key, v =>
    if k = key then (k, v) :: rest else (k, w) :: mset rest key v

/-- `d.pop(k, None)`: drop the binding of `k` (no-op when absent). -/
def mpop : List (String × YVal) → String → List (String × YVal)
  | [], _ => []
  | (k, v) :: rest, key =>
    if k = key then mpop rest key else (k, v) :: mpop rest key

/-- `k in d`. -/
def mcontains (kvs : List (String × YVal)) (key : String) : Bool :=
  (mget kvs key).isSome

/-- `isinstance(entry, dict) and entry.get("name") == n`: returns the
record's bindings when the entry is a mapping whose `name` is the string
`n`. -/
def matchKVs (e : YVal) (n : String) : Option (List (String × YVal)) :=
  match e with
  | .map kvs =>
    match mget kvs "name" with
    | some (.str s) => if s = n then some kvs else none
    | _ => none
  | _ => none

def entryMatches (e : YVal) (n : String) : Bool :=
  (matchKVs e n).isSome

/-- `current != new_description` negated: the YAML value is exactly the
string `s` (a non-string or missing value never equals a `str`). -/
def descEq : Option YVal → String → Bool
  | some (.str t), s => t = s
  | _, _ => false

/-- Errors of both scripts, classified along the spec's taxonomy.
`crash` is an exception no `except` clause catches. -/
inductive PErr where
  | notFound (msg : String)
  | structureErr (msg : String)
  | crash (msg : String)

/-- Recognized errors are printed to stderr and mapped to exit code 1;
a `crash` propagates out of `main`. -/
def recognized : PErr → Bool
  | .crash _ => false
  | _ => true

/-- Exit code of a `main` wrapper around an operation: `some 0` on
success, `some 1` on a recognized error, `none` when the process crashes
with an unhandled exception. -/
def exitCode {α : Type} : Except PErr α → Option Nat
  | .ok _ => some 0
  | .error e => if recognized e then some 1 else none

/-- `yaml.load(handle) or {}` / `or CommentedMap()`: a falsy document
root becomes an empty mapping. -/
def loadOr (v : YVal) : YVal :=
  if yFalsy v then .map [] else v

/-! ## `ruamel_model_changes.py`: batch description updates -/

/-- One element of `column_changes`: `{"column_name": ..,
"new_description": str|null}` (`""` stands for a falsy `column_name`,
which the script skips). -/
structure ColumnChange where
  column_name : String
  new_description : Option String

/-- One element of the batch `models` list.  `model_description` is
`none` when the key is absent, `some none` for an explicit null, and
`some (some s)` for a string (key presence matters). -/
structure ModelUpdate where
  model_name : String
  column_changes : List ColumnChange
  model_description : Option (Option String)

/-- The batch request payload. -/
structure Payload where
  patch_path : String
  models : List ModelUpdate

/-- `ensure_sequence(value, name)`: `None` (absent key or explicit null)
becomes `[]`, a sequence is passed through, anything else is a
`StructureError`. -/
def ensure_sequence : Option YVal → String → Except PErr (List YVal)
  | none, _ => .ok []
  | some .nullV, _ => .ok []
  | some (.seq xs), _ => .ok xs
  | some v, nm =>
    .error (.structureErr
      ("Expected `" ++ nm ++ "` to be a sequence, found " ++ pyTypeName v))

/-- `ensure_column`: find the first column record named `n`; if none
exists append a bare `{name: n}` record. -/
def ensure_column (cols : List YVal) (n : String) : List YVal :=
  if cols.any (fun e => entryMatches e n) then cols
  else cols ++ [.map [("name", .str n)]]

/-- Apply one column-description edit to the first column record named
`n` (set / remove-if-null / no-op-if-unchanged), returning the updated
sequence and whether an actual change occurred. -/
def setColDesc : List YVal → String → Option String → List YVal × Bool
  | [], _, _ => ([], false)
  | e :: rest, n, nd =>
    match matchKVs e n with
    | some ckvs =>
      match nd with
      | none =>
        if mcontains ckvs "description" then
          (.map (mpop ckvs "description") :: rest, true)
        else (e :: rest, false)
      | some s =>
        if descEq (mget ckvs "description") s then (e :: rest, false)
        else (.map (mset ckvs "description" (.str s)) :: rest, true)
    | none =>
      let r := setColDesc rest n nd
      (e :: r.1, r.2)

/-- The `for change in column_changes` loop: skip falsy column names,
find-or-create the column, apply the description edit, and collect the
names of the columns that actually changed, in edit order. -/
def applyChanges : List YVal → List ColumnChange → List YVal × List String
  | cols, [] => (cols, [])
  | cols, ch :: rest =>
    if ch.column_name.isEmpty then applyChanges cols rest
    else
      let cols₁ := ensure_column cols ch.column_name
      let r := setColDesc cols₁ ch.column_name ch.new_description
      let rec' := applyChanges r.1 rest
      (rec'.1, (if r.2 then [ch.column_name] else []) ++ rec'.2)

/-- The `model_description` block of `apply_model_update`: null removes
the key if present, a string overwrites only when different. -/
def applyMd (mkvs : List (String × YVal)) : Option (Option String) →
    List (String × YVal)
  | none => mkvs
  | some none =>
    if mcontains mkvs "description" then mpop mkvs "description" else mkvs
  | some (some s) =>
    if descEq (mget mkvs "description") s then mkvs
    else mset mkvs "description" (.str s)

/-- The body of `apply_model_update` once the model record is found:
attach the (possibly fresh) `columns` sequence, apply the
model-description edit, then the column edits. -/
def mutateModel (mkvs : List (String × YVal)) (mu : ModelUpdate) :
    Except PErr (List (String × YVal) × List String) :=
  match ensure_sequence (mget mkvs "columns") "columns" with
  | .error e => .error e
  | .ok cs =>
    let m₁ := mset mkvs "columns" (.seq cs)
    let m₂ := applyMd m₁ mu.model_description
    let r := applyChanges cs mu.column_changes
    .ok (mset m₂ "columns" (.seq r.1), r.2)

/-- `find_model` fused with the in-place mutation of the found record:
the first mapping entry whose `name` matches is updated, everything else
is left in place; no match is the script's "Model not found" error. -/
def update_models : List YVal → ModelUpdate →
    Except PErr (List YVal × List String)
  | [], mu =>
    .error (.notFound ("Model `" ++ mu.model_name ++ "` not found in YAML"))
  | e :: rest, mu =>
    match matchKVs e mu.model_name with
    | some mkvs =>
      match mutateModel mkvs mu with
      | .error er => .error er
      | .ok (mkvs', upd) => .ok (.map mkvs' :: rest, upd)
    | none =>
      match update_models rest mu with
      | .error er => .error er
      | .ok (rest', upd) => .ok (e :: rest', upd)

/-- `apply_model_update(yaml_document, model_update)`: a trivial update
(no column changes, no `model_description` key) returns immediately;
otherwise the document root must be a mapping (`.get` on anything else
is an uncaught `AttributeError`), `models` must be a sequence (absent or
null meaning empty, in which case the model is never found), and the
matched model record is mutated in place. -/
def apply_model_update (doc : YVal) (mu : ModelUpdate) :
    Except PErr (YVal × List String) :=
  if mu.column_changes.isEmpty && mu.model_description.isNone then
    .ok (doc, [])
  else
    match doc with
    | .map kvs =>
      match ensure_sequence (mget kvs "models") "models" with
      | .error e => .error e
      | .ok ms =>
        match update_models ms mu with
        | .error e => .error e
        | .ok (ms', upd) => .ok (.map (mset kvs "models" (.seq ms')), upd)
    | _ => .error (.crash "AttributeError: object has no attribute `get`")

/-- Accumulated batch results: insertion-ordered mapping from model name
to its updated column names (`results[model_name] = updated_cols`). -/
abbrev Results := List (String × List String)

def resultsSet : Results → String → List String → Results
  | [], k, v => [(k, v)]
  | (k', v') :: rest, k, v =>
    if k' = k then (k', v) :: rest else (k', v') :: resultsSet rest k v

/-- The `for model_update in model_updates` loop of `apply_updates`:
thread the in-memory document, record non-empty update lists, and track
`file_mutated`. -/
def applyUpdatesGo (doc : YVal) (acc : Results) (muts : Bool) :
    List ModelUpdate → Except PErr (YVal × Results × Bool)
  | [] => .ok (doc, acc, muts)
  | mu :: rest =>
    match apply_model_update doc mu with
    | .error e => .error e
    | .ok (doc₁, upd) =>
      if upd.isEmpty then applyUpdatesGo doc₁ acc muts rest
      else applyUpdatesGo doc₁ (resultsSet acc mu.model_name upd) true rest

/-- The filesystem: an ordered association of paths to the parsed YAML
content of existing files. -/
abbrev FS := List (String × YVal)

/-- `apply_updates(payload)`: empty batch returns immediately (before
the existence check); a missing file is a `NotFoundError`; the document
is loaded with falsy roots as empty mappings; the file is written back
(once) only when `file_mutated`.  The returned `Bool` records whether
the write was performed. -/
def apply_updates (fs : FS) (p : Payload) :
    Except PErr (FS × Results × Bool) :=
  if p.models.isEmpty then .ok (fs, [], false)
  else
    match mget fs p.patch_path with
    | none =>
      .error (.notFound ("YAML file `" ++ p.patch_path ++ "` not found"))
    | some content =>
      match applyUpdatesGo (loadOr content) [] false p.models with
      | .error e => .error e
      | .ok (docOut, res, muts) =>
        if muts then .ok (mset fs p.patch_path docOut, res, true)
        else .ok (fs, res, false)

/-! ## `ruamel_normalize_layout.py`: model relocation -/

/-- `load_document(path, yaml)`: a missing file is a fresh empty
mapping, a falsy root likewise, and a non-mapping root is the script's
"is not a mapping" `LayoutError`. -/
def load_document (fs : FS) (path : String) :
    Except PErr (List (String × YVal)) :=
  match mget fs path with
  | none => .ok []
  | some content =>
    match loadOr content with
    | .map kvs => .ok kvs
    | _ =>
      .error (.structureErr
        ("YAML document `" ++ path ++ "` is not a mapping"))

/-- `ensure_model_sequence(doc)` as observed by its callers: absent or
null `models` is an empty sequence, a sequence is passed through,
anything else is a `LayoutError`. -/
def ensure_model_sequence : Option YVal → Except PErr (List YVal)
  | none => .ok []
  | some .nullV => .ok []
  | some (.seq xs) => .ok xs
  | some _ =>
    .error (.structureErr "Expected `models` key to contain a sequence")

/-- The `models.pop(index)` loop of `remove_model`: pop the first
mapping entry named `n`, keeping the rest in order. -/
def popFromModels : List YVal → String →
    Option (List (String × YVal) × List YVal)
  | [], _ => none
  | e :: rest, n =>
    match matchKVs e n with
    | some mkvs => some (mkvs, rest)
    | none =>
      match popFromModels rest n with
      | some r => some (r.1, e :: r.2)
      | none => none

/-- `remove_model(doc, model_name, source_path)`: remove the named model
from the `models` sequence (dropping the key when the sequence becomes
empty) and return the updated document together with the removed model's
record; a missing model is a `NotFoundError`. -/
def remove_model (kvs : List (String × YVal)) (n : String) (path : String) :
    Except PErr (List (String × YVal) × List (String × YVal)) :=
  match ensure_model_sequence (mget kvs "models") with
  | .error e => .error e
  | .ok ms =>
    match popFromModels ms n with
    | none =>
      .error (.notFound
        ("Model `" ++ n ++ "` not found in `" ++ path ++ "`"))
    | some (model, ms') =>
      let kvs' :=
        if ms'.isEmpty then mpop kvs "models" else mset kvs "models" (.seq ms')
      .ok (kvs', model)

/-- The replace-or-append loop of `upsert_model`. -/
def upsertIntoModels : List YVal → List (String × YVal) → String → List YVal
  | [], model, _ => [.map model]
  | e :: rest, model, n =>
    match matchKVs e n with
    | some _ => .map model :: rest
    | none => e :: upsertIntoModels rest model n

/-- `upsert_model(doc, model, model_name)`: attach a fresh `models`
sequence when absent/null (the key is appended at the end of the
mapping), then replace the first same-named entry in place or append. -/
def upsert_model (kvs : List (String × YVal))
    (model : List (String × YVal)) (n : String) :
    Except PErr (List (String × YVal)) :=
  match mget kvs "models" with
  | none => .ok (mset kvs "models" (.seq [.map model]))
  | some .nullV => .ok (mset kvs "models" (.seq [.map model]))
  | some (.seq ms) => .ok (mset kvs "models" (.seq (upsertIntoModels ms model n)))
  | some _ =>
    .error (.structureErr "Expected `models` key to contain a sequence")

/-- `document_is_empty(doc)`: falsy `models`, falsy `sources`, and no
other top-level keys. -/
def document_is_empty (kvs : List (String × YVal)) : Bool :=
  yFalsyOpt (mget kvs "models") && yFalsyOpt (mget kvs "sources") &&
    kvs.all (fun kv => kv.1 = "models" || kv.1 = "sources")

/-- `write_or_remove(path, yaml, doc)`: delete the file (if present)
when the document is empty, otherwise write it (directory creation has
no observable effect in this model). -/
def write_or_remove (fs : FS) (path : String)
    (kvs : List (String × YVal)) : FS :=
  if document_is_empty kvs then mpop fs path else mset fs path (.map kvs)

/-- `normalize_to_directory(yaml, current_path, expected_path,
model_name)`: missing current file is a `NotFoundError`; equal paths
are a no-op reporting `mutated = false`; otherwise move the model from
the current document to the expected one and write or delete both
files. -/
def normalize_to_directory (fs : FS) (current expected : String)
    (n : String) : Except PErr (FS × Bool) :=
  if (mget fs current).isNone then
    .error (.notFound ("YAML file `" ++ current ++ "` not found"))
  else if current = expected then .ok (fs, false)
  else
    match load_document fs current with
    | .error e => .error e
    | .ok src =>
      match remove_model src n current with
      | .error e => .error e
      | .ok (src', model) =>
        match load_document fs expected with
        | .error e => .error e
        | .ok tgt =>
          match upsert_model tgt model n with
          | .error e => .error e
          | .ok tgt' =>
            .ok (write_or_remove (write_or_remove fs current src')
              expected tgt', true)

/-! ## Observation helpers (used only to state properties) -/

/-- First mapping entry named `n` in a sequence. -/
def firstRecord : List YVal → String → Option (List (String × YVal))
  | [], _ => none
  | e :: rest, n =>
    match matchKVs e n with
    | some kvs => some kvs
    | none => firstRecord rest n

/-- The description string of the first model named `m` in a document,
when the document has the expected mapping/sequence shape. -/
def modelDescOf (doc : YVal) (m : String) : Option String :=
  match doc with
  | .map kvs =>
    match mget kvs "models" with
    | some (.seq ms) =>
      match firstRecord ms m with
      | some mkvs =>
        match mget mkvs "description" with
        | some (.str s) => some s
        | _ => none
      | none => none
    | _ => none
  | _ => none

/-- Whether the document (as the update script sees it) lacks a model
named `n`: a mapping whose `models` is absent, null, or a sequence with
no mapping entry named `n`. -/
def modelMissing (doc : YVal) (n : String) : Bool :=
  match doc with
  | .map kvs =>
    match mget kvs "models" with
    | none => true
    | some .nullV => true
    | some (.seq ms) => ms.all (fun e => !(entryMatches e n))
    | some _ => false
  | _ => false

/-- The columns sequence the update script would operate on for the
first model named `m` (absent/null `columns` read as empty). -/
def modelColumnsOf (doc : YVal) (m : String) : Option (List YVal) :=
  match doc with
  | .map kvs =>
    match mget kvs "models" with
    | some (.seq ms) =>
      match firstRecord ms m with
      | some mkvs =>
        match mget mkvs "columns" with
        | some (.seq cs) => some cs
        | _ => some []
      | none => none
    | _ => none
  | _ => none

/-- Whether the first column record named `c` carries a `description`
key (false when no such column exists). -/
def columnHasDesc (cols : List YVal) (c : String) : Bool :=
  match firstRecord cols c with
  | some ckvs => mcontains ckvs "description"
  | none => false

/-- A trivial model update: no column changes and no `model_description`
key — `apply_model_update` returns before touching the document. -/
def trivialUpdate (mu : ModelUpdate) : Bool :=
  mu.column_changes.isEmpty && mu.model_description.isNone

def isMapV : YVal → Bool
  | .map _ => true
  | _ => false

/-! ## Ordered-mapping lemmas -/

theorem mget_mset_self (kvs : List (String × YVal)) (k : String) (v : YVal) :
    mget (mset kvs k v) k = some v := by
  induction kvs with
  | nil => simp [mget, mset]
  | cons kv rest ih =>
    by_cases h : kv.1 = k
    · cases kv; simp_all [mget, mset]
    · cases kv; simp_all [mget, mset]

theorem mget_mset_ne (kvs : List (String × YVal)) {k k' : String}
    (h : k ≠ k') (v : YVal) : mget (mset kvs k v) k' = mget kvs k' := by
  induction kvs with
  | nil => simp [mget, mset, h]
  | cons kv rest ih =>
    cases kv with
    | mk k₀ v₀ =>
      by_cases hk : k₀ = k
      · subst hk
        simp [mget, mset, h]
      · by_cases hk' : k₀ = k' <;> simp [mget, mset, hk, hk', ih, Ne.symm h]

theorem mset_self {kvs : List (String × YVal)} {k : String} {v : YVal}
    (h : mget kvs k = some v) : mset kvs k v = kvs := by
  induction kvs with
  | nil => simp [mget] at h
  | cons kv rest ih =>
    cases kv with
    | mk k₀ v₀ =>
      by_cases hk : k₀ = k
      · subst hk
        simp [mget] at h
        simp [mset, h]
      · simp [mget, hk] at h
        simp [mset, hk, ih h]

theorem mset_mset (kvs : List (String × YVal)) (k : String) (v w : YVal) :
    mset (mset kvs k v) k w = mset kvs k w := by
  induction kvs with
  | nil => simp [mset]
  | cons kv rest ih =>
    cases kv with
    | mk k₀ v₀ => by_cases hk : k₀ = k <;> simp [mset, hk, ih]

theorem mset_ne_nil (kvs : List (String × YVal)) (k : String) (v : YVal) :
    mset kvs k v ≠ [] := by
  cases kvs with
  | nil => simp [mset]
  | cons kv rest =>
    cases kv with
    | mk k₀ v₀ => by_cases hk : k₀ = k <;> simp [mset, hk]

theorem mget_mpop_self (kvs : List (String × YVal)) (k : String) :
    mget (mpop kvs k) k = none := by
  induction kvs with
  | nil => simp [mget, mpop]
  | cons kv rest ih =>
    cases kv with
    | mk k₀ v₀ =>
      by_cases hk : k₀ = k <;> simp [mget, mpop, hk, ih]

theorem mget_mpop_ne (kvs : List (String × YVal)) {k k' : String}
    (h : k ≠ k') : mget (mpop kvs k) k' = mget kvs k' := by
  induction kvs with
  | nil => simp [mget, mpop]
  | cons kv rest ih =>
    cases kv with
    | mk k₀ v₀ =>
      by_cases hk : k₀ = k
      · subst hk
        simp [mget, mpop, h, ih]
      · by_cases hk' : k₀ = k' <;> simp [mget, mpop, hk, hk', ih, Ne.symm h]

theorem mpop_absent {kvs : List (String × YVal)} {k : String}
    (h : mget kvs k = none) : mpop kvs k = kvs := by
  induction kvs with
  | nil => simp [mpop]
  | cons kv rest ih =>
    cases kv with
    | mk k₀ v₀ =>
      by_cases hk : k₀ = k
      · simp [mget, hk] at h
      · simp [mget, hk] at h
        simp [mpop, hk, ih h]

theorem mset_absent_append {kvs : List (String × YVal)} {k : String}
    (h : mget kvs k = none) (v : YVal) : mset kvs k v = kvs ++ [(k, v)] := by
  induction kvs with
  | nil => simp [mset]
  | cons kv rest ih =>
    cases kv with
    | mk k₀ v₀ =>
      by_cases hk : k₀ = k
      · simp [mget, hk] at h
      · simp [mget, hk] at h
        simp [mset, hk, ih h]

theorem mpop_append_self (kvs : List (String × YVal)) (k : String) (v : YVal) :
    mpop (kvs ++ [(k, v)]) k = mpop kvs k := by
  induction kvs with
  | nil => simp [mpop]
  | cons kv rest ih =>
    cases kv with
    | mk k₀ v₀ =>
      by_cases hk : k₀ = k <;> simp [mpop, hk, ih]

theorem mget_some_ne_nil {kvs : List (String × YVal)} {k : String} {v : YVal}
    (h : mget kvs k = some v) : kvs ≠ [] := by
  intro he; subst he; simp [mget] at h

/-! ## Invariants of the batch loop -/

/-- Lookup in the batch results mapping (observation helper). -/
def resultsGet : Results → String → Option (List String)
  | [], _ => none
  | (k, v) :: rest, key => if k = key then some v else resultsGet rest key

theorem resultsSet_ne_nil (acc : Results) (k : String) (v : List String) :
    resultsSet acc k v ≠ [] := by
  cases acc with
  | nil => simp [resultsSet]
  | cons pr rest =>
    cases pr with
    | mk k₀ v₀ => by_cases hk : k₀ = k <;> simp [resultsSet, hk]

theorem resultsSet_mem {acc : Results} {k : String} {v : List String}
    {pr : String × List String} (h : pr ∈ resultsSet acc k v) :
    (pr.1 = k ∧ pr.2 = v) ∨ pr ∈ acc := by
  induction acc with
  | nil =>
    simp [resultsSet] at h
    left; simp [h]
  | cons pr₀ rest ih =>
    obtain ⟨k₀, v₀⟩ := pr₀
    by_cases hk : k₀ = k
    · simp only [resultsSet] at h
      rw [if_pos hk] at h
      rcases List.mem_cons.mp h with h | h
      · left; subst hk; simp [h]
      · right; exact List.mem_cons_of_mem _ h
    · simp only [resultsSet] at h
      rw [if_neg hk] at h
      rcases List.mem_cons.mp h with h | h
      · right; exact h ▸ List.mem_cons_self _ _
      · rcases ih h with h' | h'
        · left; exact h'
        · right; exact List.mem_cons_of_mem _ h'

theorem go_acc_ne {l : List ModelUpdate} :
    ∀ {doc : YVal} {acc : Results} {m : Bool} {d : YVal} {res : Results}
      {mm : Bool},
    applyUpdatesGo doc acc m l = .ok (d, res, mm) → acc ≠ [] → res ≠ [] := by
  induction l with
  | nil =>
    intro doc acc m d res mm h hne
    simp [applyUpdatesGo] at h
    rcases h with ⟨-, h2, -⟩
    exact h2 ▸ hne
  | cons mu rest ih =>
    intro doc acc m d res mm h hne
    cases happ : apply_model_update doc mu with
    | error e =>
      simp only [applyUpdatesGo, happ] at h
      exact Except.noConfusion h
    | ok pr =>
      obtain ⟨doc₁, upd⟩ := pr
      simp only [applyUpdatesGo, happ] at h
      by_cases hu : upd.isEmpty
      · rw [if_pos hu] at h
        exact ih h hne
      · rw [if_neg hu] at h
        exact ih h (resultsSet_ne_nil acc mu.model_name upd)

theorem go_mut_mono {l : List ModelUpdate} :
    ∀ {doc : YVal} {acc : Results} {d : YVal} {res : Results} {mm : Bool},
    applyUpdatesGo doc acc true l = .ok (d, res, mm) → mm = true := by
  induction l with
  | nil =>
    intro doc acc d res mm h
    simp [applyUpdatesGo] at h
    exact h.2.2
  | cons mu rest ih =>
    intro doc acc d res mm h
    cases happ : apply_model_update doc mu with
    | error e =>
      simp only [applyUpdatesGo, happ] at h
      exact Except.noConfusion h
    | ok pr =>
      obtain ⟨doc₁, upd⟩ := pr
      simp only [applyUpdatesGo, happ] at h
      by_cases hu : upd.isEmpty
      · rw [if_pos hu] at h; exact ih h
      · rw [if_neg hu] at h; exact ih h

theorem go_mut_iff {l : List ModelUpdate} :
    ∀ {doc : YVal} {d : YVal} {res : Results} {mm : Bool},
    applyUpdatesGo doc [] false l = .ok (d, res, mm) →
    (mm = true ↔ res ≠ []) := by
  induction l with
  | nil =>
    intro doc d res mm h
    simp [applyUpdatesGo] at h
    rcases h with ⟨-, h2, h3⟩
    subst h2; subst h3
    simp
  | cons mu rest ih =>
    intro doc d res mm h
    cases happ : apply_model_update doc mu with
    | error e =>
      simp only [applyUpdatesGo, happ] at h
      exact Except.noConfusion h
    | ok pr =>
      obtain ⟨doc₁, upd⟩ := pr
      simp only [applyUpdatesGo, happ] at h
      by_cases hu : upd.isEmpty
      · rw [if_pos hu] at h; exact ih h
      · rw [if_neg hu] at h
        have hmm := go_mut_mono h
        have hres := go_acc_ne h (resultsSet_ne_nil [] mu.model_name upd)
        subst hmm
        simp [hres]

theorem go_res_mem {l : List ModelUpdate} :
    ∀ {doc : YVal} {acc : Results} {m : Bool} {d : YVal} {res : Results}
      {mm : Bool},
    applyUpdatesGo doc acc m l = .ok (d, res, mm) →
    ∀ pr ∈ res, pr ∈ acc ∨
      (pr.2 ≠ [] ∧ ∃ mu ∈ l, mu.model_name = pr.1) := by
  induction l with
  | nil =>
    intro doc acc m d res mm h pr hpr
    simp [applyUpdatesGo] at h
    rcases h with ⟨-, h2, -⟩
    left; exact h2 ▸ hpr
  | cons mu rest ih =>
    intro doc acc m d res mm h pr hpr
    cases happ : apply_model_update doc mu with
    | error e =>
      simp only [applyUpdatesGo, happ] at h
      exact Except.noConfusion h
    | ok p =>
      obtain ⟨doc₁, upd⟩ := p
      simp only [applyUpdatesGo, happ] at h
      by_cases hu : upd.isEmpty
      · rw [if_pos hu] at h
        rcases ih h pr hpr with h' | ⟨h1, mu', hmu', h2⟩
        · left; exact h'
        · right; exact ⟨h1, mu', List.mem_cons_of_mem _ hmu', h2⟩
      · rw [if_neg hu] at h
        rcases ih h pr hpr with h' | ⟨h1, mu', hmu', h2⟩
        · rcases resultsSet_mem h' with ⟨h1, h2⟩ | h''
          · right
            refine ⟨?_, mu, List.mem_cons_self _ _, h1.symm⟩
            rw [h2]
            simpa using hu
          · left; exact h''
        · right; exact ⟨h1, mu', List.mem_cons_of_mem _ hmu', h2⟩

/-! ## Claim theorems -/

/-- C1 counterexample: a request that only sets a model-level
description mutates the model in memory (the in-memory document
changes), yet `apply_updates` performs no write — refuting "written back
if and only if at least one column description actually changed or the
model was mutated (including a model-description set)". -/
theorem c1_counterexample :
    applyUpdatesGo (.map [("models", .seq [.map [("name", .str "orders")]])])
        [] false [⟨"orders", [], some (some "hello")⟩] =
      .ok (.map [("models", .seq [.map [("name", .str "orders"),
        ("columns", .seq []), ("description", .str "hello")]])], [], false) ∧
    (YVal.map [("models", .seq [.map [("name", .str "orders"),
        ("columns", .seq []), ("description", .str "hello")]])] ≠
      YVal.map [("models", .seq [.map [("name", .str "orders")]])]) ∧
    apply_updates
        [("schema.yml", .map [("models", .seq [.map [("name", .str "orders")]])])]
        ⟨"schema.yml", [⟨"orders", [], some (some "hello")⟩]⟩ =
      .ok ([("schema.yml",
        .map [("models", .seq [.map [("name", .str "orders")]])])], [], false) := by
  refine ⟨rfl, ?_, rfl⟩
  simp

/-- C1 (amended): on a successful batch update the file is written back
if and only if at least one column-description edit was actually applied
(equivalently, the response mapping is non-empty); model mutations that
change no column description — a model-description set or removal, a
bare-column creation, a `columns: []` attachment — do not trigger a
write, and when no write happens the on-disk content is unchanged. -/
theorem c1_write_iff_column_changed (fs : FS) (p : Payload) (fs' : FS)
    (res : Results) (wrote : Bool)
    (h : apply_updates fs p = .ok (fs', res, wrote)) :
    (wrote = true ↔ res ≠ []) ∧ (wrote = false → fs' = fs) ∧
    (wrote = true → ∃ doc, fs' = mset fs p.patch_path doc) := by
  unfold apply_updates at h
  by_cases hm : p.models.isEmpty
  · rw [if_pos hm] at h
    simp only [Except.ok.injEq, Prod.mk.injEq] at h
    obtain ⟨h1, h2, h3⟩ := h
    subst h1; subst h2; subst h3
    simp
  · rw [if_neg hm] at h
    cases hget : mget fs p.patch_path with
    | none =>
      simp only [hget] at h
      exact Except.noConfusion h
    | some content =>
      simp only [hget] at h
      cases hgo : applyUpdatesGo (loadOr content) [] false p.models with
      | error e =>
        simp only [hgo] at h
        exact Except.noConfusion h
      | ok out =>
        rcases out with ⟨docOut, res₀, muts⟩
        simp only [hgo] at h
        have hiff := go_mut_iff hgo
        by_cases hmut : muts = true
        · rw [if_pos hmut] at h
          simp only [Except.ok.injEq, Prod.mk.injEq] at h
          obtain ⟨h1, h2, h3⟩ := h
          subst h1; subst h2; subst h3
          exact ⟨by simp [hiff.mp hmut], by simp, fun _ => ⟨docOut, rfl⟩⟩
        · rw [if_neg hmut] at h
          simp only [Except.ok.injEq, Prod.mk.injEq] at h
          obtain ⟨h1, h2, h3⟩ := h
          subst h1; subst h2; subst h3
          have hres : res₀ = [] := by
            by_contra hc
            exact hmut (hiff.mpr hc)
          exact ⟨by simp [hres], fun _ => rfl, by simp⟩

/-- C1 witness: a concrete run where one column description changes:
the write happens, the result is non-empty, and the file is updated. -/
theorem c1_write_iff_column_changed_witness :
    ((true = true) ↔ (([("orders", ["id"])] : Results) ≠ [])) ∧
    ((true : Bool) = false →
      ([("schema.yml", YVal.map [("models", .seq [.map [("name", .str "orders"),
        ("columns", .seq [.map [("name", .str "id"),
          ("description", .str "new")]])]])])] : FS) =
      [("schema.yml", .map [("models", .seq [.map [("name", .str "orders"),
        ("columns", .seq [.map [("name", .str "id"),
          ("description", .str "old")]])]])])]) ∧
    ((true : Bool) = true → ∃ doc,
      ([("schema.yml", YVal.map [("models", .seq [.map [("name", .str "orders"),
        ("columns", .seq [.map [("name", .str "id"),
          ("description", .str "new")]])]])])] : FS) =
      mset [("schema.yml", .map [("models", .seq [.map [("name", .str "orders"),
        ("columns", .seq [.map [("name", .str "id"),
          ("description", .str "old")]])]])])] "schema.yml" doc) :=
  c1_write_iff_column_changed
    [("schema.yml", .map [("models", .seq [.map [("name", .str "orders"),
      ("columns", .seq [.map [("name", .str "id"),
        ("description", .str "old")]])]])])]
    ⟨"schema.yml", [⟨"orders", [⟨"id", some "new"⟩], none⟩]⟩
    _ _ _ rfl

/-- C4 counterexample: a batch naming two models where only `m1`'s edit
actually changes anything: the response maps `m1` but omits `m2`
entirely (instead of mapping it to an empty list), refuting "the
response maps every requested model's name". -/
theorem c4_counterexample :
    apply_updates
        [("schema.yml", .map [("models", .seq [
          .map [("name", .str "m1"), ("columns", .seq [.map [("name", .str "a"),
            ("description", .str "old")]])],
          .map [("name", .str "m2"), ("columns", .seq [.map [("name", .str "b"),
            ("description", .str "x")]])]])])]
        ⟨"schema.yml", [⟨"m1", [⟨"a", some "new"⟩], none⟩,
          ⟨"m2", [⟨"b", some "x"⟩], none⟩]⟩ =
      .ok ([("schema.yml", .map [("models", .seq [
          .map [("name", .str "m1"), ("columns", .seq [.map [("name", .str "a"),
            ("description", .str "new")]])],
          .map [("name", .str "m2"), ("columns", .seq [.map [("name", .str "b"),
            ("description", .str "x")]])]])])],
        [("m1", ["a"])], true) ∧
    resultsGet [("m1", ["a"])] "m2" = none := ⟨rfl, rfl⟩

/-- C5 counterexample: an update request whose file does not exist but
whose models list is empty returns successfully (the empty-batch early
return precedes the existence check), refuting "for every update
request whose patch_path does not exist the operation fails with
NotFoundError". -/
theorem c5_counterexample :
    apply_updates [] ⟨"missing.yml", []⟩ = .ok ([], [], false) := rfl

/-- C5 (amended): an update request with a non-empty models list whose
file does not exist fails with the script's NotFoundError, and a
relocate request always fails with the script's NotFoundError when its
current path does not exist. -/
theorem c5_missing_file_not_found :
    (∀ (fs : FS) (p : Payload), p.models ≠ [] →
      mget fs p.patch_path = none →
      apply_updates fs p =
        .error (.notFound ("YAML file `" ++ p.patch_path ++ "` not found"))) ∧
    (∀ (fs : FS) (c e n : String), mget fs c = none →
      normalize_to_directory fs c e n =
        .error (.notFound ("YAML file `" ++ c ++ "` not found"))) := by
  constructor
  · intro fs p hne hget
    have hm : p.models.isEmpty = false := by
      cases hp : p.models with
      | nil => exact absurd hp hne
      | cons a l => simp
    unfold apply_updates
    rw [hm]
    simp only [hget]
    rfl
  · intro fs c e n hget
    unfold normalize_to_directory
    rw [if_pos (by simp [hget])]

/-- C5 witness: both amended conclusions at concrete missing files. -/
theorem c5_missing_file_not_found_witness :
    apply_updates [] ⟨"missing.yml", [⟨"m", [⟨"c", some "d"⟩], none⟩]⟩ =
      .error (.notFound "YAML file `missing.yml` not found") ∧
    normalize_to_directory [] "a.yml" "b.yml" "m" =
      .error (.notFound "YAML file `a.yml` not found") :=
  ⟨c5_missing_file_not_found.1 [] ⟨"missing.yml", [⟨"m", [⟨"c", some "d"⟩], none⟩]⟩
      (by simp) rfl,
    c5_missing_file_not_found.2 [] "a.yml" "b.yml" "m" rfl⟩

/-! ## Supporting lemmas for the remaining claims -/

theorem go_append (l₁ l₂ : List ModelUpdate) :
    ∀ (doc : YVal) (acc : Results) (m : Bool),
    applyUpdatesGo doc acc m (l₁ ++ l₂) =
      match applyUpdatesGo doc acc m l₁ with
      | .error e => .error e
      | .ok (d, a, mm) => applyUpdatesGo d a mm l₂ := by
  induction l₁ with
  | nil => intro doc acc m; simp [applyUpdatesGo]
  | cons mu rest ih =>
    intro doc acc m
    cases happ : apply_model_update doc mu with
    | error e => simp [applyUpdatesGo, happ]
    | ok pr =>
      obtain ⟨doc₁, upd⟩ := pr
      by_cases hu : upd.isEmpty <;>
        simp [applyUpdatesGo, happ, hu, ih]

theorem entryMatches_false_matchKVs {e : YVal} {n : String}
    (h : entryMatches e n = false) : matchKVs e n = none := by
  unfold entryMatches at h
  exact Option.not_isSome_iff_eq_none.mp (by simp [h])

theorem update_models_all_missing {ms : List YVal} {mu : ModelUpdate}
    (h : ms.all (fun e => !(entryMatches e mu.model_name)) = true) :
    update_models ms mu =
      .error (.notFound ("Model `" ++ mu.model_name ++ "` not found in YAML")) := by
  induction ms with
  | nil => rfl
  | cons e rest ih =>
    simp only [List.all_cons, Bool.and_eq_true, Bool.not_eq_true'] at h
    obtain ⟨h1, h2⟩ := h
    have hmk := entryMatches_false_matchKVs h1
    have hrest := ih (by simpa using h2)
    simp [update_models, hmk, hrest]

theorem apply_model_update_missing {doc : YVal} {mu : ModelUpdate}
    (hmiss : modelMissing doc mu.model_name = true)
    (hnt : trivialUpdate mu = false) :
    apply_model_update doc mu =
      .error (.notFound ("Model `" ++ mu.model_name ++ "` not found in YAML")) := by
  cases doc with
  | map kvs =>
    unfold apply_model_update
    rw [show (mu.column_changes.isEmpty && mu.model_description.isNone) = false
      from hnt]
    simp only [Bool.false_eq_true, if_false]
    simp only [modelMissing] at hmiss
    cases hm : mget kvs "models" with
    | none =>
      rw [hm] at hmiss
      simp [ensure_sequence, update_models]
    | some v =>
      rw [hm] at hmiss
      cases v with
      | nullV => simp [ensure_sequence, update_models]
      | str s => simp at hmiss
      | map kvs' => simp at hmiss
      | seq ms =>
        simp only [ensure_sequence]
        rw [update_models_all_missing hmiss]
  | nullV => simp [modelMissing] at hmiss
  | str s => simp [modelMissing] at hmiss
  | seq xs => simp [modelMissing] at hmiss

theorem popFromModels_all_missing {ms : List YVal} {n : String}
    (h : ms.all (fun e => !(entryMatches e n)) = true) :
    popFromModels ms n = none := by
  induction ms with
  | nil => rfl
  | cons e rest ih =>
    simp only [List.all_cons, Bool.and_eq_true, Bool.not_eq_true'] at h
    obtain ⟨h1, h2⟩ := h
    have hmk := entryMatches_false_matchKVs h1
    have hrest := ih (by simpa using h2)
    simp [popFromModels, hmk, hrest]

theorem remove_model_missing {kvs : List (String × YVal)} {n : String}
    (path : String) (hmiss : modelMissing (.map kvs) n = true) :
    remove_model kvs n path =
      .error (.notFound ("Model `" ++ n ++ "` not found in `" ++ path ++ "`")) := by
  simp only [modelMissing] at hmiss
  unfold remove_model
  cases hm : mget kvs "models" with
  | none =>
    rw [hm] at hmiss
    simp [ensure_model_sequence, popFromModels]
  | some v =>
    rw [hm] at hmiss
    cases v with
    | nullV => simp [ensure_model_sequence, popFromModels]
    | str s => simp at hmiss
    | map kvs' => simp at hmiss
    | seq ms =>
      simp only [ensure_model_sequence]
      rw [popFromModels_all_missing hmiss]

/-- C2 counterexample: a batch update naming an absent model (`ghost`)
with no column changes and no model_description key succeeds with an
empty result instead of failing with NotFoundError — the per-model
early return happens before the model lookup. -/
theorem c2_counterexample :
    apply_updates
        [("schema.yml", .map [("models", .seq [.map [("name", .str "orders")]])])]
        ⟨"schema.yml", [⟨"ghost", [], none⟩]⟩ =
      .ok ([("schema.yml",
        .map [("models", .seq [.map [("name", .str "orders")]])])], [], false) := rfl

/-- C2 (amended): an update request naming an absent model fails with a
NotFoundError, provided that model's entry actually attempts changes
(at least one column change or a model_description key) and the entries
processed before it succeeded; a relocate request with distinct paths
naming an absent model likewise fails with NotFoundError.  In both
cases the operation returns an error, so no file write occurs and every
file's content is unchanged (prior edits were applied only in memory). -/
theorem c2_missing_model_not_found :
    (∀ (fs : FS) (p : Payload) (content : YVal) (pre post : List ModelUpdate)
      (mu : ModelUpdate) (d₁ : YVal) (a₁ : Results) (m₁ : Bool),
      p.models = pre ++ mu :: post →
      mget fs p.patch_path = some content →
      applyUpdatesGo (loadOr content) [] false pre = .ok (d₁, a₁, m₁) →
      trivialUpdate mu = false →
      modelMissing d₁ mu.model_name = true →
      apply_updates fs p =
        .error (.notFound
          ("Model `" ++ mu.model_name ++ "` not found in YAML"))) ∧
    (∀ (fs : FS) (c e n : String) (content : YVal),
      mget fs c = some content → c ≠ e →
      modelMissing (loadOr content) n = true →
      normalize_to_directory fs c e n =
        .error (.notFound ("Model `" ++ n ++ "` not found in `" ++ c ++ "`"))) := by
  constructor
  · intro fs p content pre post mu d₁ a₁ m₁ hp hget hpre hnt hmiss
    unfold apply_updates
    rw [hp]
    rw [show (pre ++ mu :: post).isEmpty = false by simp]
    simp only [Bool.false_eq_true, if_false, hget]
    rw [go_append]
    rw [hpre]
    have hbad := apply_model_update_missing hmiss hnt
    simp [applyUpdatesGo, hbad]
  · intro fs c e n content hget hne hmiss
    unfold normalize_to_directory
    rw [if_neg (by simp [hget])]
    rw [if_neg hne]
    simp only [load_document, hget]
    cases hl : loadOr content with
    | map kvs =>
      rw [hl] at hmiss
      simp [remove_model_missing c hmiss]
    | nullV => rw [hl] at hmiss; simp [modelMissing] at hmiss
    | str s => rw [hl] at hmiss; simp [modelMissing] at hmiss
    | seq xs => rw [hl] at hmiss; simp [modelMissing] at hmiss

/-- C2 witness: both amended conclusions at concrete inputs — a batch
whose first entry succeeds and whose second names an absent model, and
a relocate naming an absent model. -/
theorem c2_missing_model_not_found_witness :
    apply_updates
        [("schema.yml", .map [("models", .seq [.map [("name", .str "orders"),
          ("columns", .seq [.map [("name", .str "id"),
            ("description", .str "old")]])]])])]
        ⟨"schema.yml", [⟨"orders", [⟨"id", some "new"⟩], none⟩,
          ⟨"ghost", [⟨"c", some "d"⟩], none⟩]⟩ =
      .error (.notFound "Model `ghost` not found in YAML") ∧
    normalize_to_directory
        [("a.yml", .map [("models", .seq [.map [("name", .str "orders")]])])]
        "a.yml" "b.yml" "ghost" =
      .error (.notFound "Model `ghost` not found in `a.yml`") :=
  ⟨c2_missing_model_not_found.1
      [("schema.yml", .map [("models", .seq [.map [("name", .str "orders"),
        ("columns", .seq [.map [("name", .str "id"),
          ("description", .str "old")]])]])])]
      ⟨"schema.yml", [⟨"orders", [⟨"id", some "new"⟩], none⟩,
        ⟨"ghost", [⟨"c", some "d"⟩], none⟩]⟩
      (.map [("models", .seq [.map [("name", .str "orders"),
        ("columns", .seq [.map [("name", .str "id"),
          ("description", .str "old")]])]])])
      [⟨"orders", [⟨"id", some "new"⟩], none⟩] [] ⟨"ghost", [⟨"c", some "d"⟩], none⟩
      _ _ _ rfl rfl rfl rfl rfl,
    c2_missing_model_not_found.2
      [("a.yml", .map [("models", .seq [.map [("name", .str "orders")]])])]
      "a.yml" "b.yml" "ghost"
      (.map [("models", .seq [.map [("name", .str "orders")]])])
      rfl (by simp) rfl⟩

/-! ## Batch response characterization (C4) -/

theorem matchKVs_name {e : YVal} {n : String}
    {mkvs : List (String × YVal)} (h : matchKVs e n = some mkvs) :
    mget mkvs "name" = some (.str n) ∧ e = .map mkvs := by
  cases e with
  | map kvs =>
    cases hn : mget kvs "name" with
    | none =>
      simp only [matchKVs, hn] at h
      exact Option.noConfusion h
    | some v =>
      cases v with
      | str s =>
        simp only [matchKVs, hn] at h
        by_cases hs : s = n
        · rw [if_pos hs] at h
          simp only [Option.some.injEq] at h
          subst h; subst hs
          exact ⟨hn, rfl⟩
        · rw [if_neg hs] at h; exact Option.noConfusion h
      | nullV =>
        simp only [matchKVs, hn] at h
        exact Option.noConfusion h
      | seq xs =>
        simp only [matchKVs, hn] at h
        exact Option.noConfusion h
      | map kvs₂ =>
        simp only [matchKVs, hn] at h
        exact Option.noConfusion h
  | nullV => exact Option.noConfusion h
  | str s => exact Option.noConfusion h
  | seq xs => exact Option.noConfusion h

theorem resultsGet_resultsSet_self (acc : Results) (k : String)
    (v : List String) : resultsGet (resultsSet acc k v) k = some v := by
  induction acc with
  | nil => simp [resultsGet, resultsSet]
  | cons pr rest ih =>
    obtain ⟨k₀, v₀⟩ := pr
    by_cases hk : k₀ = k
    · subst hk
      simp [resultsSet, resultsGet]
    · simp [resultsSet, resultsGet, hk, ih]

theorem resultsGet_resultsSet_ne {k n : String} (h : k ≠ n)
    (acc : Results) (v : List String) :
    resultsGet (resultsSet acc k v) n = resultsGet acc n := by
  induction acc with
  | nil => simp [resultsGet, resultsSet, h]
  | cons pr rest ih =>
    obtain ⟨k₀, v₀⟩ := pr
    by_cases hk : k₀ = k
    · subst hk
      simp [resultsSet, resultsGet, h]
    · by_cases hk' : k₀ = n <;>
        simp [resultsSet, resultsGet, hk, hk', ih, Ne.symm h]

/-- Models whose names are absent from the remaining batch never touch
their entry in the results mapping. -/
theorem go_res_lookup {l : List ModelUpdate} (n : String) :
    ∀ {doc : YVal} {acc : Results} {m : Bool} {d : YVal} {res : Results}
      {mm : Bool},
    applyUpdatesGo doc acc m l = .ok (d, res, mm) →
    (∀ mu' ∈ l, mu'.model_name ≠ n) →
    resultsGet res n = resultsGet acc n := by
  induction l with
  | nil =>
    intro doc acc m d res mm h _
    simp [applyUpdatesGo] at h
    rw [h.2.1]
  | cons mu rest ih =>
    intro doc acc m d res mm h hn
    cases happ : apply_model_update doc mu with
    | error e =>
      simp only [applyUpdatesGo, happ] at h
      exact Except.noConfusion h
    | ok pr =>
      obtain ⟨doc₁, upd⟩ := pr
      simp only [applyUpdatesGo, happ] at h
      by_cases hu : upd.isEmpty = true
      · rw [if_pos hu] at h
        exact ih h (fun mu' hm => hn mu' (List.mem_cons_of_mem _ hm))
      · rw [if_neg hu] at h
        rw [ih h (fun mu' hm => hn mu' (List.mem_cons_of_mem _ hm))]
        exact resultsGet_resultsSet_ne (hn mu (List.mem_cons_self _ _)) acc upd

/-- A successful non-empty batch returns exactly the results of the
batch loop over the loaded document. -/
theorem apply_updates_go_results {fs : FS} {p : Payload} {content : YVal}
    {fs' : FS} {res : Results} {wrote : Bool}
    (hne : p.models ≠ [])
    (hget : mget fs p.patch_path = some content)
    (h : apply_updates fs p = .ok (fs', res, wrote)) :
    ∃ docOut muts,
      applyUpdatesGo (loadOr content) [] false p.models =
        .ok (docOut, res, muts) := by
  unfold apply_updates at h
  rw [show p.models.isEmpty = false from by
    cases hx : p.models with
    | nil => exact absurd hx hne
    | cons a l => rfl] at h
  simp only [Bool.false_eq_true, if_false, hget] at h
  cases hgo : applyUpdatesGo (loadOr content) [] false p.models with
  | error e =>
    simp only [hgo] at h
    exact Except.noConfusion h
  | ok out =>
    obtain ⟨docOut, res₀, muts⟩ := out
    simp only [hgo] at h
    by_cases hm : muts = true
    · rw [if_pos hm] at h
      simp only [Except.ok.injEq, Prod.mk.injEq] at h
      exact ⟨docOut, muts, by rw [h.2.1]⟩
    · rw [if_neg hm] at h
      simp only [Except.ok.injEq, Prod.mk.injEq] at h
      exact ⟨docOut, muts, by rw [h.2.1]⟩

/-- A column edit is reported as updated exactly when applying it
actually modified the columns sequence: a set to a different value or
a removal of a present description changes the first matching record,
while the no-op branches return the sequence untouched. -/
theorem setColDesc_reported_iff (cols : List YVal) (n : String)
    (nd : Option String) :
    (setColDesc cols n nd).2 = true ↔ (setColDesc cols n nd).1 ≠ cols := by
  induction cols with
  | nil => simp [setColDesc]
  | cons e rest ih =>
    cases hmk : matchKVs e n with
    | some ckvs =>
      obtain ⟨hname, he⟩ := matchKVs_name hmk
      subst he
      cases nd with
      | none =>
        by_cases hc : mcontains ckvs "description" = true
        · simp only [setColDesc, hmk, if_pos hc]
          refine ⟨fun _ heq => ?_, fun _ => trivial⟩
          injection heq with h1 h2
          injection h1 with h1
          have h3 := congrArg (fun l => mget l "description") h1
          simp only [mget_mpop_self] at h3
          unfold mcontains at hc
          rw [← h3] at hc
          simp at hc
        · simp only [setColDesc, hmk, if_neg hc]
          simp
      | some s =>
        by_cases hd : descEq (mget ckvs "description") s = true
        · simp only [setColDesc, hmk, if_pos hd]
          simp
        · simp only [setColDesc, hmk, if_neg hd]
          refine ⟨fun _ heq => ?_, fun _ => trivial⟩
          injection heq with h1 h2
          injection h1 with h1
          have h3 := congrArg (fun l => mget l "description") h1
          simp only [mget_mset_self] at h3
          rw [← h3] at hd
          simp [descEq] at hd
    | none =>
      simp only [setColDesc, hmk]
      constructor
      · intro hb heq
        injection heq with h1 h2
        exact (ih.mp hb) h2
      · intro hne
        by_contra hb
        have heq : (setColDesc rest n nd).1 = rest := by
          by_contra hx
          exact hb (ih.mpr hx)
        exact hne (by rw [heq])

/-- C4 (amended): on a successful batch update, the response maps each
requested model that had at least one actually-applied column edit to
exactly the ordered list of the column names that changed for it, and
omits requested models whose edits changed nothing (model names act as
unique keys of the response).  Concretely: every response entry is a
requested model's name with a non-empty list; for request batches with
pairwise-distinct model names, looking up a requested model in the
response yields precisely the update list its entry produced when
processed (present iff non-empty, in edit order); being reported is
equivalent to the edit having modified the columns sequence; and at
most one file write occurs, covering all requested models. -/
theorem c4_results_are_requested_changes (fs : FS) (p : Payload) (fs' : FS)
    (res : Results) (wrote : Bool)
    (h : apply_updates fs p = .ok (fs', res, wrote)) :
    (∀ pr ∈ res, pr.2 ≠ [] ∧ ∃ mu ∈ p.models, mu.model_name = pr.1) ∧
    (fs' = fs ∨ ∃ doc, fs' = mset fs p.patch_path doc) ∧
    (∀ (content : YVal) (pre post : List ModelUpdate) (mu : ModelUpdate)
      (d₁ : YVal) (a₁ : Results) (m₁ : Bool) (d₂ : YVal) (upd : List String),
      (p.models.map (fun mu' => mu'.model_name)).Nodup →
      mget fs p.patch_path = some content →
      p.models = pre ++ mu :: post →
      applyUpdatesGo (loadOr content) [] false pre = .ok (d₁, a₁, m₁) →
      apply_model_update d₁ mu = .ok (d₂, upd) →
      resultsGet res mu.model_name = if upd.isEmpty then none else some upd) ∧
    (∀ (cols : List YVal) (n : String) (nd : Option String),
      (setColDesc cols n nd).2 = true ↔ (setColDesc cols n nd).1 ≠ cols) := by
  have hmain : (∀ pr ∈ res, pr.2 ≠ [] ∧
      ∃ mu ∈ p.models, mu.model_name = pr.1) ∧
      (fs' = fs ∨ ∃ doc, fs' = mset fs p.patch_path doc) := by
    unfold apply_updates at h
    by_cases hm : p.models.isEmpty
    · rw [if_pos hm] at h
      simp only [Except.ok.injEq, Prod.mk.injEq] at h
      obtain ⟨h1, h2, h3⟩ := h
      subst h1; subst h2; subst h3
      exact ⟨by simp, Or.inl rfl⟩
    · rw [if_neg hm] at h
      cases hget : mget fs p.patch_path with
      | none =>
        simp only [hget] at h
        exact Except.noConfusion h
      | some content =>
        simp only [hget] at h
        cases hgo : applyUpdatesGo (loadOr content) [] false p.models with
        | error e =>
          simp only [hgo] at h
          exact Except.noConfusion h
        | ok out =>
          rcases out with ⟨docOut, res₀, muts⟩
          simp only [hgo] at h
          have hmem := go_res_mem hgo
          by_cases hmut : muts = true
          · rw [if_pos hmut] at h
            simp only [Except.ok.injEq, Prod.mk.injEq] at h
            obtain ⟨h1, h2, h3⟩ := h
            subst h1; subst h2; subst h3
            refine ⟨?_, Or.inr ⟨docOut, rfl⟩⟩
            intro pr hpr
            rcases hmem pr hpr with h' | h'
            · simp at h'
            · exact h'
          · rw [if_neg hmut] at h
            simp only [Except.ok.injEq, Prod.mk.injEq] at h
            obtain ⟨h1, h2, h3⟩ := h
            subst h1; subst h2; subst h3
            refine ⟨?_, Or.inl rfl⟩
            intro pr hpr
            rcases hmem pr hpr with h' | h'
            · simp at h'
            · exact h'
  refine ⟨hmain.1, hmain.2, ?_,
    fun cols n nd => setColDesc_reported_iff cols n nd⟩
  intro content pre post mu d₁ a₁ m₁ d₂ upd hnodup hget hp hpre happ
  have hne : p.models ≠ [] := by rw [hp]; simp
  obtain ⟨docOut, muts, hgo⟩ := apply_updates_go_results hne hget h
  rw [hp] at hgo
  simp only [go_append, hpre] at hgo
  simp only [applyUpdatesGo, happ] at hgo
  rw [hp, List.map_append, List.map_cons, List.nodup_append] at hnodup
  obtain ⟨-, hncons, hdisj⟩ := hnodup
  have hpostn : ∀ mu' ∈ post, mu'.model_name ≠ mu.model_name := by
    intro mu' hm he
    exact (List.nodup_cons.mp hncons).1 (he ▸ List.mem_map_of_mem _ hm)
  have hpren : ∀ mu' ∈ pre, mu'.model_name ≠ mu.model_name := by
    intro mu' hm he
    exact hdisj (he ▸ List.mem_map_of_mem _ hm) (List.mem_cons_self _ _)
  have ha₁ : resultsGet a₁ mu.model_name = none := by
    rw [go_res_lookup mu.model_name hpre hpren]
    rfl
  by_cases hu : upd.isEmpty = true
  · rw [if_pos hu] at hgo
    rw [if_pos hu]
    rw [go_res_lookup mu.model_name hgo hpostn]
    exact ha₁
  · rw [if_neg hu] at hgo
    rw [if_neg hu]
    rw [go_res_lookup mu.model_name hgo hpostn]
    exact resultsGet_resultsSet_self a₁ mu.model_name upd

/-- C4 witness: the two-model batch with one real change: every
response entry is a requested model with a non-empty list, `m1` (whose
column `a` changed) is mapped to exactly `["a"]`, and `m2` (whose edit
changed nothing) is absent from the response. -/
theorem c4_results_are_requested_changes_witness :
    (∀ pr ∈ ([("m1", ["a"])] : Results), pr.2 ≠ [] ∧
      ∃ mu ∈ [(⟨"m1", [⟨"a", some "new"⟩], none⟩ : ModelUpdate),
        ⟨"m2", [⟨"b", some "x"⟩], none⟩], mu.model_name = pr.1) ∧
    resultsGet [("m1", ["a"])] "m1" = some ["a"] ∧
    resultsGet [("m1", ["a"])] "m2" = none := by
  have T := c4_results_are_requested_changes
    [("schema.yml", .map [("models", .seq [
      .map [("name", .str "m1"), ("columns", .seq [.map [("name", .str "a"),
        ("description", .str "old")]])],
      .map [("name", .str "m2"), ("columns", .seq [.map [("name", .str "b"),
        ("description", .str "x")]])]])])]
    ⟨"schema.yml", [⟨"m1", [⟨"a", some "new"⟩], none⟩,
      ⟨"m2", [⟨"b", some "x"⟩], none⟩]⟩
    _ _ _ rfl
  refine ⟨T.1, ?_, ?_⟩
  · exact T.2.2.1
      (.map [("models", .seq [
        .map [("name", .str "m1"), ("columns", .seq [.map [("name", .str "a"),
          ("description", .str "old")]])],
        .map [("name", .str "m2"), ("columns", .seq [.map [("name", .str "b"),
          ("description", .str "x")]])]])])
      [] [⟨"m2", [⟨"b", some "x"⟩], none⟩] ⟨"m1", [⟨"a", some "new"⟩], none⟩
      _ _ _ _ _ (by decide) rfl rfl rfl rfl
  · exact T.2.2.1
      (.map [("models", .seq [
        .map [("name", .str "m1"), ("columns", .seq [.map [("name", .str "a"),
          ("description", .str "old")]])],
        .map [("name", .str "m2"), ("columns", .seq [.map [("name", .str "b"),
          ("description", .str "x")]])]])])
      [⟨"m1", [⟨"a", some "new"⟩], none⟩] [] ⟨"m2", [⟨"b", some "x"⟩], none⟩
      _ _ _ _ _ (by decide) rfl rfl rfl rfl


/-- Modelled from the spec: "if it is now empty (no `models`, no
`sources`, and no other top-level keys), delete the file if it exists;
otherwise create parent directories as needed and write it" — the
spec's emptiness condition, stated independently of the code: the
`models` key is absent or holds an empty value, likewise `sources`, and
every top-level key is one of those two. -/
def spec_document_empty (kvs : List (String × YVal)) : Bool :=
  (match mget kvs "models" with
   | none => true
   | some v => yFalsy v) &&
  (match mget kvs "sources" with
   | none => true
   | some v => yFalsy v) &&
  kvs.all (fun kv => kv.1 = "models" || kv.1 = "sources")

/-- C8: after a relocate each of the two documents goes through
`write_or_remove`: an empty document's file is deleted (a no-op when it
does not exist), a non-empty document is written; the code's emptiness
test agrees with the spec's "no (non-empty) models key, no (non-empty)
sources key, no other top-level keys". -/
theorem c8_empty_deleted_else_written :
    (∀ kvs, document_is_empty kvs = spec_document_empty kvs) ∧
    (∀ (fs : FS) (path : String) kvs, document_is_empty kvs = true →
      write_or_remove fs path kvs = mpop fs path) ∧
    (∀ (fs : FS) (path : String) kvs, document_is_empty kvs = false →
      write_or_remove fs path kvs = mset fs path (.map kvs)) ∧
    (∀ (fs : FS) (c e n : String) (fs' : FS),
      normalize_to_directory fs c e n = .ok (fs', true) →
      ∃ src tgt, fs' = write_or_remove (write_or_remove fs c src) e tgt) := by
  refine ⟨?_, ?_, ?_, ?_⟩
  · intro kvs
    unfold document_is_empty spec_document_empty yFalsyOpt
    cases mget kvs "models" <;> cases mget kvs "sources" <;> rfl
  · intro fs path kvs h
    unfold write_or_remove
    rw [if_pos h]
  · intro fs path kvs h
    unfold write_or_remove
    rw [h]
    simp
  · intro fs c e n fs' h
    unfold normalize_to_directory at h
    by_cases h1 : (mget fs c).isNone
    · rw [if_pos h1] at h
      exact Except.noConfusion h
    · rw [if_neg h1] at h
      by_cases h2 : c = e
      · rw [if_pos h2] at h
        simp at h
      · rw [if_neg h2] at h
        cases hld : load_document fs c with
        | error er => simp only [hld] at h; exact Except.noConfusion h
        | ok src =>
          simp only [hld] at h
          cases hrm : remove_model src n c with
          | error er => simp only [hrm] at h; exact Except.noConfusion h
          | ok pr =>
            obtain ⟨src', model⟩ := pr
            simp only [hrm] at h
            cases hlt : load_document fs e with
            | error er => simp only [hlt] at h; exact Except.noConfusion h
            | ok tgt =>
              simp only [hlt] at h
              cases hup : upsert_model tgt model n with
              | error er => simp only [hup] at h; exact Except.noConfusion h
              | ok tgt' =>
                simp only [hup] at h
                simp only [Except.ok.injEq, Prod.mk.injEq] at h
                exact ⟨src', tgt', h.1.symm⟩

/-- C8 witness: a concrete relocate emptying its source file: the
source is deleted, the target written, and both emptiness judgments
agree. -/
theorem c8_empty_deleted_else_written_witness :
    document_is_empty [("version", .str "2")] =
      spec_document_empty [("version", .str "2")] ∧
    write_or_remove [("a.yml", .map [("models", .seq [.map [("name", .str "m")]])])]
        "a.yml" [] =
      mpop [("a.yml", .map [("models", .seq [.map [("name", .str "m")]])])] "a.yml" ∧
    write_or_remove [] "b.yml" [("models", .seq [.map [("name", .str "m")]])] =
      mset [] "b.yml" (.map [("models", .seq [.map [("name", .str "m")]])]) ∧
    (∃ src tgt,
      ([("b.yml", YVal.map [("models", .seq [.map [("name", .str "m")]])])] : FS) =
        write_or_remove (write_or_remove
          [("a.yml", .map [("models", .seq [.map [("name", .str "m")]])])]
          "a.yml" src) "b.yml" tgt) :=
  ⟨c8_empty_deleted_else_written.1 [("version", .str "2")],
    c8_empty_deleted_else_written.2.1 _ "a.yml" [] rfl,
    c8_empty_deleted_else_written.2.2.1 _ "b.yml"
      [("models", .seq [.map [("name", .str "m")]])] rfl,
    c8_empty_deleted_else_written.2.2.2
      [("a.yml", .map [("models", .seq [.map [("name", .str "m")]])])]
      "a.yml" "b.yml" "m" _ rfl⟩

/-- A trivial model update passes through `apply_model_update`
untouched. -/
theorem apply_model_update_trivial {doc : YVal} {mu : ModelUpdate}
    (h : trivialUpdate mu = true) :
    apply_model_update doc mu = .ok (doc, []) := by
  unfold apply_model_update
  rw [show (mu.column_changes.isEmpty && mu.model_description.isNone) = true
    from h]
  simp

/-- A prefix of trivial updates is skipped by the batch loop. -/
theorem go_trivial_prefix {pre : List ModelUpdate}
    (h : ∀ mu' ∈ pre, trivialUpdate mu' = true) :
    ∀ (doc : YVal) (acc : Results) (m : Bool) (rest : List ModelUpdate),
    applyUpdatesGo doc acc m (pre ++ rest) = applyUpdatesGo doc acc m rest := by
  induction pre with
  | nil => intro doc acc m rest; rfl
  | cons mu₀ tail ih =>
    intro doc acc m rest
    have h0 := @apply_model_update_trivial doc mu₀
      (h mu₀ (List.mem_cons_self _ _))
    have htail := ih (fun mu' hm => h mu' (List.mem_cons_of_mem _ hm))
    simp only [List.cons_append, applyUpdatesGo, h0, List.isEmpty_nil,
      if_pos]
    exact htail doc acc m rest

/-- A truthy non-mapping root crashes `apply_model_update` with an
uncaught AttributeError as soon as a non-trivial update touches it. -/
theorem apply_model_update_crash {doc : YVal} {mu : ModelUpdate}
    (hmap : isMapV doc = false) (hnt : trivialUpdate mu = false) :
    apply_model_update doc mu =
      .error (.crash "AttributeError: object has no attribute `get`") := by
  unfold apply_model_update
  rw [show (mu.column_changes.isEmpty && mu.model_description.isNone) = false
    from hnt]
  cases doc with
  | map kvs => simp [isMapV] at hmap
  | nullV => simp
  | str s => simp
  | seq xs => simp

/-- C9 counterexample: an update request on a file whose YAML root is a
(non-empty) sequence crashes with an unhandled AttributeError — not a
recognized structured error with exit code 1. -/
theorem c9_counterexample :
    apply_updates [("f.yml", .seq [.str "x"])]
        ⟨"f.yml", [⟨"m", [⟨"a", some "d"⟩], none⟩]⟩ =
      .error (.crash "AttributeError: object has no attribute `get`") ∧
    exitCode (apply_updates [("f.yml", .seq [.str "x"])]
        ⟨"f.yml", [⟨"m", [⟨"a", some "d"⟩], none⟩]⟩) = none ∧
    recognized (.crash "AttributeError: object has no attribute `get`") = false :=
  ⟨rfl, rfl, rfl⟩

/-- C9 (amended): a non-mapping document root is handled differently by
the two scripts.  The relocate script fails with its recognized "is not
a mapping" StructureError (exit code 1).  The update script never
checks: with a truthy non-mapping root it crashes with an unhandled
AttributeError (no recognized error, no exit code) as soon as a
non-trivial model update is processed; falsy roots are silently treated
as empty mappings. -/
theorem c9_non_mapping_root :
    (∀ (fs : FS) (c e n : String) (v : YVal),
      mget fs c = some v → yFalsy v = false → isMapV v = false → c ≠ e →
      normalize_to_directory fs c e n =
        .error (.structureErr ("YAML document `" ++ c ++ "` is not a mapping")) ∧
      exitCode (normalize_to_directory fs c e n) = some 1) ∧
    (∀ (fs : FS) (p : Payload) (content : YVal)
      (pre post : List ModelUpdate) (mu : ModelUpdate),
      p.models = pre ++ mu :: post →
      (∀ mu' ∈ pre, trivialUpdate mu' = true) →
      trivialUpdate mu = false →
      mget fs p.patch_path = some content →
      yFalsy content = false → isMapV content = false →
      apply_updates fs p =
        .error (.crash "AttributeError: object has no attribute `get`") ∧
      exitCode (apply_updates fs p) = none) := by
  constructor
  · intro fs c e n v hget hfal hmap hne
    have hmain : normalize_to_directory fs c e n =
        .error (.structureErr ("YAML document `" ++ c ++ "` is not a mapping")) := by
      unfold normalize_to_directory
      rw [if_neg (by simp [hget])]
      rw [if_neg hne]
      simp only [load_document, hget]
      have hl : loadOr v = v := by unfold loadOr; rw [hfal]; simp
      rw [hl]
      cases v with
      | map kvs => simp [isMapV] at hmap
      | nullV => simp [yFalsy] at hfal
      | str s => rfl
      | seq xs => rfl
    exact ⟨hmain, by rw [hmain]; rfl⟩
  · intro fs p content pre post mu hp hpre hnt hget hfal hmap
    have hmain : apply_updates fs p =
        .error (.crash "AttributeError: object has no attribute `get`") := by
      unfold apply_updates
      rw [hp]
      rw [show (pre ++ mu :: post).isEmpty = false by simp]
      simp only [Bool.false_eq_true, if_false, hget]
      have hl : loadOr content = content := by unfold loadOr; rw [hfal]; simp
      rw [hl, go_trivial_prefix hpre]
      have hbad := apply_model_update_crash hmap hnt
      simp [applyUpdatesGo, hbad]
    exact ⟨hmain, by rw [hmain]; rfl⟩

/-- C9 witness: both amended conclusions at concrete non-mapping roots:
the relocate script's recognized error, and the update script's crash. -/
theorem c9_non_mapping_root_witness :
    (normalize_to_directory [("a.yml", .seq [.str "x"])] "a.yml" "b.yml" "m" =
        .error (.structureErr "YAML document `a.yml` is not a mapping") ∧
      exitCode (normalize_to_directory [("a.yml", .seq [.str "x"])]
        "a.yml" "b.yml" "m") = some 1) ∧
    (apply_updates [("g.yml", .str "scalar")]
        ⟨"g.yml", [⟨"m", [], some none⟩]⟩ =
        .error (.crash "AttributeError: object has no attribute `get`") ∧
      exitCode (apply_updates [("g.yml", .str "scalar")]
        ⟨"g.yml", [⟨"m", [], some none⟩]⟩) = none) :=
  ⟨c9_non_mapping_root.1 [("a.yml", .seq [.str "x"])] "a.yml" "b.yml" "m"
      (.seq [.str "x"]) rfl rfl rfl (by simp),
    c9_non_mapping_root.2 [("g.yml", .str "scalar")]
      ⟨"g.yml", [⟨"m", [], some none⟩]⟩ (.str "scalar") [] []
      ⟨"m", [], some none⟩ rfl (by simp) rfl rfl rfl rfl⟩

/-! ## Column-level lemmas -/

/-- Whether the named column of the named model (as the update script
would see them) carries a `description` key. -/
def columnHasDescIn (doc : YVal) (m c : String) : Bool :=
  match modelColumnsOf doc m with
  | some cs => columnHasDesc cs c
  | none => false

theorem firstRecord_none_of_any_false {cols : List YVal} {c : String}
    (h : cols.any (fun e => entryMatches e c) = false) :
    firstRecord cols c = none := by
  induction cols with
  | nil => rfl
  | cons e rest ih =>
    simp only [List.any_cons, Bool.or_eq_false_iff] at h
    obtain ⟨h1, h2⟩ := h
    have hmk := entryMatches_false_matchKVs h1
    simp [firstRecord, hmk, ih h2]

theorem firstRecord_bare (cols : List YVal) (c : String)
    (h : cols.any (fun e => entryMatches e c) = false) :
    firstRecord (cols ++ [.map [("name", .str c)]]) c =
      some [("name", .str c)] := by
  induction cols with
  | nil => simp [firstRecord, matchKVs, mget]
  | cons e rest ih =>
    simp only [List.any_cons, Bool.or_eq_false_iff] at h
    obtain ⟨h1, h2⟩ := h
    have hmk := entryMatches_false_matchKVs h1
    simp only [List.cons_append, firstRecord, hmk]
    exact ih h2

theorem columnHasDesc_ensure (cols : List YVal) (c : String) :
    columnHasDesc (ensure_column cols c) c = columnHasDesc cols c := by
  unfold ensure_column
  by_cases hany : cols.any (fun e => entryMatches e c)
  · rw [if_pos hany]
  · have hf : cols.any (fun e => entryMatches e c) = false := by
      simpa using hany
    rw [if_neg hany]
    unfold columnHasDesc
    rw [firstRecord_bare cols c hf, firstRecord_none_of_any_false hf]
    rfl

theorem setColDesc_null_snd (cols : List YVal) (c : String) :
    (setColDesc cols c none).2 = columnHasDesc cols c := by
  induction cols with
  | nil => rfl
  | cons e rest ih =>
    cases hmk : matchKVs e c with
    | some ckvs =>
      simp only [setColDesc, hmk, columnHasDesc, firstRecord]
      by_cases hc : mcontains ckvs "description" = true <;> simp [hc]
    | none =>
      simp only [setColDesc, hmk]
      unfold columnHasDesc
      simp only [firstRecord, hmk]
      exact ih

theorem update_models_ok_firstRecord {ms : List YVal} {mu : ModelUpdate}
    {ms' : List YVal} {upd : List String}
    (h : update_models ms mu = .ok (ms', upd)) :
    ∃ mkvs mkvs', firstRecord ms mu.model_name = some mkvs ∧
      mutateModel mkvs mu = .ok (mkvs', upd) := by
  induction ms generalizing ms' with
  | nil => exact Except.noConfusion h
  | cons e rest ih =>
    cases hmk : matchKVs e mu.model_name with
    | some mkvs =>
      simp only [update_models, hmk] at h
      cases hmut : mutateModel mkvs mu with
      | error er => rw [hmut] at h; exact Except.noConfusion h
      | ok pr =>
        obtain ⟨mkvs', upd₀⟩ := pr
        rw [hmut] at h
        simp only [Except.ok.injEq, Prod.mk.injEq] at h
        exact ⟨mkvs, mkvs', by simp [firstRecord, hmk],
          by rw [hmut, h.2]⟩
    | none =>
      simp only [update_models, hmk] at h
      cases hrec : update_models rest mu with
      | error er => rw [hrec] at h; exact Except.noConfusion h
      | ok pr =>
        obtain ⟨rest', upd₀⟩ := pr
        rw [hrec] at h
        simp only [Except.ok.injEq, Prod.mk.injEq] at h
        obtain ⟨mkvs, mkvs', h1, h2⟩ := ih (by rw [hrec, h.2])
        exact ⟨mkvs, mkvs', by simp [firstRecord, hmk, h1], h2⟩

/-- A null-description edit on a column that lacks a description (or
does not exist) is never reported as updated. -/
theorem null_edit_not_reported {doc : YVal} {m c : String}
    {md : Option (Option String)} {doc₁ : YVal} {upd : List String}
    (h : apply_model_update doc ⟨m, [⟨c, none⟩], md⟩ = .ok (doc₁, upd))
    (hdesc : columnHasDescIn doc m c = false) : upd = [] := by
  unfold apply_model_update at h
  simp only [List.isEmpty_cons, Bool.false_and, Bool.false_eq_true,
    if_false] at h
  cases doc with
  | nullV => exact Except.noConfusion h
  | str s => exact Except.noConfusion h
  | seq xs => exact Except.noConfusion h
  | map kvs =>
    cases hm : mget kvs "models" with
    | none =>
      simp only [hm, ensure_sequence] at h
      exact Except.noConfusion h
    | some v =>
      cases v with
      | nullV =>
        simp only [hm, ensure_sequence] at h
        exact Except.noConfusion h
      | str s => simp only [hm, ensure_sequence] at h; exact Except.noConfusion h
      | map kvs' => simp only [hm, ensure_sequence] at h; exact Except.noConfusion h
      | seq ms =>
        simp only [hm, ensure_sequence] at h
        cases hum : update_models ms ⟨m, [⟨c, none⟩], md⟩ with
        | error er => rw [hum] at h; exact Except.noConfusion h
        | ok pr =>
          obtain ⟨ms', upd₀⟩ := pr
          rw [hum] at h
          simp only [Except.ok.injEq, Prod.mk.injEq] at h
          obtain ⟨mkvs, mkvs', hfr, hmut⟩ := update_models_ok_firstRecord hum
          have hfr' : firstRecord ms m = some mkvs := hfr
          simp only [columnHasDescIn, modelColumnsOf, hm, hfr'] at hdesc
          unfold mutateModel at hmut
          obtain ⟨-, hupd⟩ := h
          subst hupd
          cases hcols : mget mkvs "columns" with
          | none =>
            simp only [hcols, ensure_sequence] at hmut
            simp only [hcols] at hdesc
            simp only [Except.ok.injEq, Prod.mk.injEq] at hmut
            rw [← hmut.2]
            by_cases hc : c.isEmpty
            · simp [applyChanges, hc]
            · simp only [applyChanges, hc, Bool.false_eq_true, if_false]
              rw [setColDesc_null_snd, columnHasDesc_ensure]
              simpa using hdesc
          | some v =>
            cases v with
            | nullV =>
              simp only [hcols, ensure_sequence] at hmut
              simp only [hcols] at hdesc
              simp only [Except.ok.injEq, Prod.mk.injEq] at hmut
              rw [← hmut.2]
              by_cases hc : c.isEmpty
              · simp [applyChanges, hc]
              · simp only [applyChanges, hc, Bool.false_eq_true, if_false]
                rw [setColDesc_null_snd, columnHasDesc_ensure]
                simpa using hdesc
            | str s =>
              simp only [hcols, ensure_sequence] at hmut
              exact Except.noConfusion hmut
            | map kvs₂ =>
              simp only [hcols, ensure_sequence] at hmut
              exact Except.noConfusion hmut
            | seq cs =>
              simp only [hcols, ensure_sequence] at hmut
              simp only [hcols] at hdesc
              simp only [Except.ok.injEq, Prod.mk.injEq] at hmut
              rw [← hmut.2]
              by_cases hc : c.isEmpty
              · simp [applyChanges, hc]
              · simp only [applyChanges, hc, Bool.false_eq_true, if_false]
                rw [setColDesc_null_snd, columnHasDesc_ensure]
                simpa using hdesc

/-- C3 counterexample: a batch containing a null edit for a
non-existent column `b` together with a real edit for `a`: the write
(caused by `a`) persists a bare `{name: b}` record that the null edit
created, so the file content is changed by that edit (compare with the
same request without it), refuting "the resulting file content is
unchanged by that edit". -/
theorem c3_counterexample :
    apply_updates
        [("f.yml", .map [("models", .seq [.map [("name", .str "m"),
          ("columns", .seq [.map [("name", .str "a"),
            ("description", .str "old")]])]])])]
        ⟨"f.yml", [⟨"m", [⟨"b", none⟩, ⟨"a", some "new"⟩], none⟩]⟩ =
      .ok ([("f.yml", .map [("models", .seq [.map [("name", .str "m"),
          ("columns", .seq [.map [("name", .str "a"),
            ("description", .str "new")], .map [("name", .str "b")]])]])])],
        [("m", ["a"])], true) ∧
    apply_updates
        [("f.yml", .map [("models", .seq [.map [("name", .str "m"),
          ("columns", .seq [.map [("name", .str "a"),
            ("description", .str "old")]])]])])]
        ⟨"f.yml", [⟨"m", [⟨"a", some "new"⟩], none⟩]⟩ =
      .ok ([("f.yml", .map [("models", .seq [.map [("name", .str "m"),
          ("columns", .seq [.map [("name", .str "a"),
            ("description", .str "new")]])]])])],
        [("m", ["a"])], true) ∧
    (YVal.map [("models", .seq [.map [("name", .str "m"),
        ("columns", .seq [.map [("name", .str "a"),
          ("description", .str "new")], .map [("name", .str "b")]])]])] ≠
      .map [("models", .seq [.map [("name", .str "m"),
        ("columns", .seq [.map [("name", .str "a"),
          ("description", .str "new")]])]])]) := by
  refine ⟨rfl, rfl, ?_⟩
  simp

/-- C3 (amended): a null-description edit for a column that has no
description key (or does not exist) is not reported as updated and
never triggers a write by itself: a request containing only that edit
leaves the filesystem untouched and returns an empty result.  (If the
column did not exist, a bare `{name}` record is still created in
memory, and persists only when some other edit in the same request
triggers the write.) -/
theorem c3_null_edit_no_write (fs : FS) (path m c : String)
    (md : Option (Option String)) (content : YVal)
    (out : FS × Results × Bool)
    (hget : mget fs path = some content)
    (hdesc : columnHasDescIn (loadOr content) m c = false)
    (h : apply_updates fs ⟨path, [⟨m, [⟨c, none⟩], md⟩]⟩ = .ok out) :
    out = (fs, [], false) := by
  unfold apply_updates at h
  simp only [List.isEmpty_cons, Bool.false_eq_true, if_false, hget] at h
  cases happ : apply_model_update (loadOr content) ⟨m, [⟨c, none⟩], md⟩ with
  | error e =>
    simp only [applyUpdatesGo, happ] at h
    exact Except.noConfusion h
  | ok pr =>
    obtain ⟨doc₁, upd⟩ := pr
    have hupd : upd = [] := null_edit_not_reported happ hdesc
    subst hupd
    simp only [applyUpdatesGo, happ, List.isEmpty_nil, if_pos] at h
    simp only [Bool.false_eq_true, if_false, Except.ok.injEq] at h
    exact h.symm

/-- C3 witness: the amended no-op property at a concrete file where the
column `b` does not exist. -/
theorem c3_null_edit_no_write_witness :
    (([("f.yml", YVal.map [("models", .seq [.map [("name", .str "m"),
        ("columns", .seq [.map [("name", .str "a"),
          ("description", .str "old")]])]])])] : FS), ([] : Results),
      false) =
    (([("f.yml", YVal.map [("models", .seq [.map [("name", .str "m"),
        ("columns", .seq [.map [("name", .str "a"),
          ("description", .str "old")]])]])])] : FS), ([] : Results),
      false) :=
  c3_null_edit_no_write
    [("f.yml", .map [("models", .seq [.map [("name", .str "m"),
      ("columns", .seq [.map [("name", .str "a"),
        ("description", .str "old")]])]])])]
    "f.yml" "m" "b" none
    (.map [("models", .seq [.map [("name", .str "m"),
      ("columns", .seq [.map [("name", .str "a"),
        ("description", .str "old")]])]])])
    _ rfl rfl rfl

/-- C10: a null edit for a non-existent column appends a bare
`{name: column_name}` record to the columns sequence without reporting
the column as updated, and (concretely) when another edit in the same
request triggers the write, the bare record is persisted to the file
while the response lists only the other column. -/
theorem c10_bare_column_created :
    (∀ (cols : List YVal) (c : String),
      cols.any (fun e => entryMatches e c) = false →
      ensure_column cols c = cols ++ [.map [("name", .str c)]] ∧
      setColDesc (cols ++ [.map [("name", .str c)]]) c none =
        (cols ++ [.map [("name", .str c)]], false)) ∧
    apply_updates
        [("p.yml", .map [("models", .seq [.map [("name", .str "m"),
          ("columns", .seq [.map [("name", .str "a"),
            ("description", .str "old")]])]])])]
        ⟨"p.yml", [⟨"m", [⟨"b", none⟩, ⟨"a", some "new"⟩], none⟩]⟩ =
      .ok ([("p.yml", .map [("models", .seq [.map [("name", .str "m"),
          ("columns", .seq [.map [("name", .str "a"),
            ("description", .str "new")], .map [("name", .str "b")]])]])])],
        [("m", ["a"])], true) := by
  constructor
  · intro cols c hany
    constructor
    · unfold ensure_column
      rw [hany]
      simp
    · induction cols with
      | nil =>
        simp [setColDesc, matchKVs, mget, mcontains]
      | cons e rest ih =>
        simp only [List.any_cons, Bool.or_eq_false_iff] at hany
        obtain ⟨h1, h2⟩ := hany
        have hmk := entryMatches_false_matchKVs h1
        have := ih h2
        simp only [List.cons_append, setColDesc, hmk, List.append_eq, this]
  · rfl

/-- C10 witness: the bare-record clause at a concrete columns sequence
that lacks the edited column. -/
theorem c10_bare_column_created_witness :
    ensure_column [.map [("name", .str "a")]] "b" =
      [.map [("name", .str "a")], .map [("name", .str "b")]] ∧
    setColDesc [.map [("name", .str "a")], .map [("name", .str "b")]] "b" none =
      ([.map [("name", .str "a")], .map [("name", .str "b")]], false) :=
  c10_bare_column_created.1 [.map [("name", .str "a")]] "b" rfl

/-! ## Idempotence (C6) -/

theorem descEq_some {v : Option YVal} {s : String} (h : descEq v s = true) :
    v = some (.str s) := by
  match v with
  | some (.str t) =>
    simp only [descEq, decide_eq_true_eq] at h
    rw [h]
  | none => simp [descEq] at h
  | some .nullV => simp [descEq] at h
  | some (.seq _) => simp [descEq] at h
  | some (.map _) => simp [descEq] at h

theorem matchKVs_of_name {mkvs : List (String × YVal)} {n : String}
    (h : mget mkvs "name" = some (.str n)) :
    matchKVs (.map mkvs) n = some mkvs := by
  simp [matchKVs, h]

theorem applyMd_mget_ne (m : List (String × YVal))
    (md : Option (Option String)) {k : String} (hk : k ≠ "description") :
    mget (applyMd m md) k = mget m k := by
  cases md with
  | none => rfl
  | some o =>
    cases o with
    | none =>
      simp only [applyMd]
      by_cases hc : mcontains m "description" = true
      · rw [if_pos hc]
        exact mget_mpop_ne m (Ne.symm hk)
      · rw [if_neg hc]
    | some s =>
      simp only [applyMd]
      by_cases hd : descEq (mget m "description") s = true
      · rw [if_pos hd]
      · rw [if_neg hd]
        exact mget_mset_ne m (Ne.symm hk) _

theorem applyMd_null_desc (m : List (String × YVal)) :
    mget (applyMd m (some none)) "description" = none := by
  simp only [applyMd]
  by_cases hc : mcontains m "description" = true
  · rw [if_pos hc]
    exact mget_mpop_self m "description"
  · rw [if_neg hc]
    unfold mcontains at hc
    exact Option.not_isSome_iff_eq_none.mp (by simpa using hc)

theorem applyMd_set_desc (m : List (String × YVal)) (s : String) :
    mget (applyMd m (some (some s))) "description" = some (.str s) := by
  simp only [applyMd]
  by_cases hd : descEq (mget m "description") s = true
  · rw [if_pos hd]
    exact descEq_some hd
  · rw [if_neg hd]
    exact mget_mset_self m "description" _

theorem applyMd_of_null {m : List (String × YVal)}
    (h : mget m "description" = none) : applyMd m (some none) = m := by
  simp only [applyMd]
  rw [if_neg (by unfold mcontains; rw [h]; simp)]

theorem applyMd_of_set {m : List (String × YVal)} {s : String}
    (h : mget m "description" = some (.str s)) :
    applyMd m (some (some s)) = m := by
  simp only [applyMd]
  rw [if_pos (by rw [h]; simp [descEq])]

theorem setColDesc_idem (cols : List YVal) (n : String) (nd : Option String) :
    setColDesc (setColDesc cols n nd).1 n nd = ((setColDesc cols n nd).1, false) ∧
    (setColDesc cols n nd).1.any (fun e => entryMatches e n) =
      cols.any (fun e => entryMatches e n) := by
  induction cols with
  | nil => exact ⟨rfl, rfl⟩
  | cons e rest ih =>
    cases hmk : matchKVs e n with
    | some ckvs =>
      obtain ⟨hname, he⟩ := matchKVs_name hmk
      cases nd with
      | none =>
        by_cases hc : mcontains ckvs "description" = true
        · simp only [setColDesc, hmk, if_pos hc]
          have hname' : mget (mpop ckvs "description") "name" = some (.str n) := by
            rw [mget_mpop_ne ckvs (by decide)]
            exact hname
          have hmk' := matchKVs_of_name hname'
          have hc' : mcontains (mpop ckvs "description") "description" = false := by
            unfold mcontains
            rw [mget_mpop_self]
            rfl
          refine ⟨?_, ?_⟩
          · simp [setColDesc, hmk', hc']
          · simp [entryMatches, hmk, hmk']
        · simp only [setColDesc, hmk, if_neg hc]
          exact ⟨by simp [setColDesc, hmk, hc], trivial⟩
      | some s =>
        by_cases hd : descEq (mget ckvs "description") s = true
        · simp only [setColDesc, hmk, if_pos hd]
          exact ⟨by simp [setColDesc, hmk, hd], trivial⟩
        · simp only [setColDesc, hmk, if_neg hd]
          have hname' : mget (mset ckvs "description" (.str s)) "name" =
              some (.str n) := by
            rw [mget_mset_ne ckvs (by decide)]
            exact hname
          have hmk' := matchKVs_of_name hname'
          have hd' : descEq (mget (mset ckvs "description" (.str s)) "description")
              s = true := by
            rw [mget_mset_self]
            simp [descEq]
          refine ⟨?_, ?_⟩
          · simp [setColDesc, hmk', hd']
          · simp [entryMatches, hmk, hmk']
    | none =>
      constructor
      · simp only [setColDesc, hmk, ih.1]
      · simp only [setColDesc, hmk, List.any_cons, ih.2]

theorem ensure_column_of_any {cols : List YVal} {n : String}
    (h : cols.any (fun e => entryMatches e n) = true) :
    ensure_column cols n = cols := by
  unfold ensure_column
  rw [if_pos h]

theorem ensure_column_any (cols : List YVal) (n : String) :
    (ensure_column cols n).any (fun e => entryMatches e n) = true := by
  unfold ensure_column
  by_cases h : cols.any (fun e => entryMatches e n) = true
  · rw [if_pos h]; exact h
  · rw [if_neg h]
    simp [List.any_append, entryMatches, matchKVs, mget]

theorem applyChanges_idem_le1 (cols : List YVal) (ccs : List ColumnChange)
    (hlen : ccs.length ≤ 1) :
    applyChanges (applyChanges cols ccs).1 ccs = ((applyChanges cols ccs).1, []) := by
  match ccs with
  | [] => rfl
  | [ch] =>
    by_cases hc : ch.column_name.isEmpty
    · simp [applyChanges, hc]
    · simp only [applyChanges, hc, Bool.false_eq_true, if_false]
      have hany : (setColDesc (ensure_column cols ch.column_name)
          ch.column_name ch.new_description).1.any
          (fun e => entryMatches e ch.column_name) = true := by
        rw [(setColDesc_idem (ensure_column cols ch.column_name)
          ch.column_name ch.new_description).2]
        exact ensure_column_any cols ch.column_name
      rw [ensure_column_of_any hany]
      rw [(setColDesc_idem (ensure_column cols ch.column_name)
        ch.column_name ch.new_description).1]
      simp
  | ch₁ :: ch₂ :: rest => simp at hlen

theorem mutateModel_idem {mkvs : List (String × YVal)} {mu : ModelUpdate}
    {mkvs₃ : List (String × YVal)} {upd : List String}
    (hlen : mu.column_changes.length ≤ 1)
    (h : mutateModel mkvs mu = .ok (mkvs₃, upd)) :
    mutateModel mkvs₃ mu = .ok (mkvs₃, []) ∧
    mget mkvs₃ "name" = mget mkvs "name" := by
  unfold mutateModel at h
  cases hens : ensure_sequence (mget mkvs "columns") "columns" with
  | error e => rw [hens] at h; exact Except.noConfusion h
  | ok cs =>
    rw [hens] at h
    simp only [Except.ok.injEq, Prod.mk.injEq] at h
    obtain ⟨h3, hupd⟩ := h
    subst h3; subst hupd
    constructor
    · unfold mutateModel
      rw [mget_mset_self]
      show (match ensure_sequence (some (.seq (applyChanges cs
        mu.column_changes).1)) "columns" with
        | Except.error e => Except.error e
        | Except.ok cs₂ => _) = _
      simp only [ensure_sequence]
      rw [mset_self (mget_mset_self _ "columns" _)]
      have hmd : applyMd (mset (applyMd (mset mkvs "columns" (.seq cs))
          mu.model_description) "columns"
          (.seq (applyChanges cs mu.column_changes).1))
          mu.model_description =
          mset (applyMd (mset mkvs "columns" (.seq cs))
            mu.model_description) "columns"
            (.seq (applyChanges cs mu.column_changes).1) := by
        cases hmdv : mu.model_description with
        | none => rfl
        | some o =>
          cases o with
          | none =>
            exact applyMd_of_null
              (by rw [mget_mset_ne _ (by decide), applyMd_null_desc])
          | some s =>
            exact applyMd_of_set
              (by rw [mget_mset_ne _ (by decide), applyMd_set_desc])
      rw [hmd]
      rw [applyChanges_idem_le1 cs mu.column_changes hlen]
      rw [mset_self (mget_mset_self _ "columns" _)]
    · rw [mget_mset_ne _ (by decide), applyMd_mget_ne _ _ (by decide),
        mget_mset_ne _ (by decide)]

theorem update_models_idem {ms : List YVal} {mu : ModelUpdate}
    {ms' : List YVal} {upd : List String}
    (hlen : mu.column_changes.length ≤ 1)
    (h : update_models ms mu = .ok (ms', upd)) :
    update_models ms' mu = .ok (ms', []) := by
  induction ms generalizing ms' upd with
  | nil => exact Except.noConfusion h
  | cons e rest ih =>
    cases hmk : matchKVs e mu.model_name with
    | some mkvs =>
      simp only [update_models, hmk] at h
      cases hmut : mutateModel mkvs mu with
      | error er => rw [hmut] at h; exact Except.noConfusion h
      | ok pr =>
        obtain ⟨mkvs₃, upd₀⟩ := pr
        rw [hmut] at h
        simp only [Except.ok.injEq, Prod.mk.injEq] at h
        obtain ⟨h1, h2⟩ := h
        subst h1
        obtain ⟨hidem, hname⟩ := mutateModel_idem hlen hmut
        have hn := matchKVs_name hmk
        have hm3 : matchKVs (.map mkvs₃) mu.model_name = some mkvs₃ :=
          matchKVs_of_name (by rw [hname, hn.1])
        simp [update_models, hm3, hidem]
    | none =>
      simp only [update_models, hmk] at h
      cases hrec : update_models rest mu with
      | error er => rw [hrec] at h; exact Except.noConfusion h
      | ok pr =>
        obtain ⟨rest', upd₀⟩ := pr
        rw [hrec] at h
        simp only [Except.ok.injEq, Prod.mk.injEq] at h
        obtain ⟨h1, h2⟩ := h
        subst h1
        have hrec' := ih hrec
        simp [update_models, hmk, hrec']

theorem apply_model_update_idem {doc : YVal} {mu : ModelUpdate} {doc₁ : YVal}
    {upd : List String} (hlen : mu.column_changes.length ≤ 1)
    (h : apply_model_update doc mu = .ok (doc₁, upd)) :
    apply_model_update doc₁ mu = .ok (doc₁, []) ∧
    (upd ≠ [] → yFalsy doc₁ = false) := by
  unfold apply_model_update at h
  by_cases ht : (mu.column_changes.isEmpty && mu.model_description.isNone) = true
  · rw [if_pos ht] at h
    simp only [Except.ok.injEq, Prod.mk.injEq] at h
    obtain ⟨h1, h2⟩ := h
    subst h1
    constructor
    · unfold apply_model_update
      rw [if_pos ht]
    · intro hne
      exact absurd h2.symm hne
  · rw [if_neg ht] at h
    cases doc with
    | nullV => exact Except.noConfusion h
    | str s => exact Except.noConfusion h
    | seq xs => exact Except.noConfusion h
    | map kvs =>
      cases hm : mget kvs "models" with
      | none =>
        simp only [hm, ensure_sequence, update_models] at h
        exact Except.noConfusion h
      | some v =>
        cases v with
        | nullV =>
          simp only [hm, ensure_sequence, update_models] at h
          exact Except.noConfusion h
        | str s =>
          simp only [hm, ensure_sequence] at h
          exact Except.noConfusion h
        | map kvs₂ =>
          simp only [hm, ensure_sequence] at h
          exact Except.noConfusion h
        | seq ms =>
          simp only [hm, ensure_sequence] at h
          cases hum : update_models ms mu with
          | error er => rw [hum] at h; exact Except.noConfusion h
          | ok pr =>
            obtain ⟨ms', upd₀⟩ := pr
            rw [hum] at h
            simp only [Except.ok.injEq, Prod.mk.injEq] at h
            obtain ⟨h1, h2⟩ := h
            subst h1; subst h2
            have hidem := update_models_idem hlen hum
            constructor
            · unfold apply_model_update
              rw [if_neg ht]
              simp only [mget_mset_self, ensure_sequence, hidem, mset_mset]
            · intro hne
              show (mset kvs "models" (.seq ms')).isEmpty = false
              cases hx : mset kvs "models" (.seq ms') with
              | nil => exact absurd hx (mset_ne_nil kvs "models" _)
              | cons a l => rfl

/-- C6: idempotence — a single-model update request with at most one
column edit (one column-description edit and/or a model-description
edit), applied a second time after a successful first application,
performs no write and returns an empty result. -/
theorem c6_second_application_noop (fs : FS) (p : Payload) (mu : ModelUpdate)
    (fs' : FS) (res : Results) (wrote : Bool)
    (hm : p.models = [mu]) (hlen : mu.column_changes.length ≤ 1)
    (h : apply_updates fs p = .ok (fs', res, wrote)) :
    apply_updates fs' p = .ok (fs', [], false) := by
  unfold apply_updates at h ⊢
  rw [hm] at h ⊢
  simp only [List.isEmpty_cons, Bool.false_eq_true, if_false] at h ⊢
  cases hget : mget fs p.patch_path with
  | none =>
    simp only [hget] at h
    exact Except.noConfusion h
  | some content =>
    simp only [hget] at h
    cases happ : apply_model_update (loadOr content) mu with
    | error e =>
      simp only [applyUpdatesGo, happ] at h
      exact Except.noConfusion h
    | ok pr =>
      obtain ⟨doc₁, upd⟩ := pr
      obtain ⟨hidem, hfal⟩ := apply_model_update_idem hlen happ
      by_cases hu : upd.isEmpty = true
      · simp only [applyUpdatesGo, happ, if_pos hu, Bool.false_eq_true,
          if_false, Except.ok.injEq, Prod.mk.injEq] at h
        obtain ⟨h1, h2, h3⟩ := h
        subst h1; subst h2; subst h3
        simp only [hget]
        simp only [applyUpdatesGo, happ, if_pos hu]
        rfl
      · simp only [applyUpdatesGo, happ, if_neg hu, if_true,
          Except.ok.injEq, Prod.mk.injEq] at h
        obtain ⟨h1, h2, h3⟩ := h
        subst h1; subst h2; subst h3
        have hne : upd ≠ [] := by
          intro hx; rw [hx] at hu; exact hu rfl
        rw [show mget (mset fs p.patch_path doc₁) p.patch_path = some doc₁
          from mget_mset_self _ _ _]
        have hload : loadOr doc₁ = doc₁ := by
          unfold loadOr
          rw [hfal hne]
          simp
        simp only [applyUpdatesGo, hload, hidem, List.isEmpty_nil, if_pos,
          Bool.false_eq_true, if_false]

/-- C6 witness: a concrete edit applied twice: the first run writes and
reports the column, the second run writes nothing and reports nothing. -/
theorem c6_second_application_noop_witness :
    apply_updates
        [("s.yml", .map [("models", .seq [.map [("name", .str "orders"),
          ("columns", .seq [.map [("name", .str "id"),
            ("description", .str "new")]]),
          ("description", .str "desc")]])])]
        ⟨"s.yml", [⟨"orders", [⟨"id", some "new"⟩], some (some "desc")⟩]⟩ =
      .ok ([("s.yml", .map [("models", .seq [.map [("name", .str "orders"),
        ("columns", .seq [.map [("name", .str "id"),
          ("description", .str "new")]]),
        ("description", .str "desc")]])])], [], false) :=
  c6_second_application_noop
    [("s.yml", .map [("models", .seq [.map [("name", .str "orders"),
      ("columns", .seq [.map [("name", .str "id"),
        ("description", .str "old")]])]])])]
    ⟨"s.yml", [⟨"orders", [⟨"id", some "new"⟩], some (some "desc")⟩]⟩
    ⟨"orders", [⟨"id", some "new"⟩], some (some "desc")⟩
    _ _ _ rfl (by simp) rfl

/-! ## Relocate round trip (C7) -/

theorem loadOr_map {kvs : List (String × YVal)} (h : kvs ≠ []) :
    loadOr (.map kvs) = .map kvs := by
  unfold loadOr
  rw [show yFalsy (.map kvs) = false from by
    cases hx : kvs with
    | nil => exact absurd hx h
    | cons a l => rfl]
  simp

theorem popFromModels_append_last {ms : List YVal} {n : String}
    (mkvs : List (String × YVal))
    (hms : ms.all (fun e => !(entryMatches e n)) = true)
    (hname : mget mkvs "name" = some (.str n)) :
    popFromModels (ms ++ [.map mkvs]) n = some (mkvs, ms) := by
  induction ms with
  | nil =>
    simp only [List.nil_append, popFromModels, matchKVs_of_name hname]
  | cons e rest ih =>
    simp only [List.all_cons, Bool.and_eq_true, Bool.not_eq_true'] at hms
    obtain ⟨h1, h2⟩ := hms
    have hmk := entryMatches_false_matchKVs h1
    simp only [List.cons_append, popFromModels, hmk, List.append_eq,
      ih (by simpa using h2)]

theorem upsertIntoModels_append {ms : List YVal} {n : String}
    (model : List (String × YVal))
    (hms : ms.all (fun e => !(entryMatches e n)) = true) :
    upsertIntoModels ms model n = ms ++ [.map model] := by
  induction ms with
  | nil => rfl
  | cons e rest ih =>
    simp only [List.all_cons, Bool.and_eq_true, Bool.not_eq_true'] at hms
    obtain ⟨h1, h2⟩ := hms
    have hmk := entryMatches_false_matchKVs h1
    simp only [upsertIntoModels, hmk, List.cons_append,
      ih (by simpa using h2)]

/-- C7 counterexample: file A holds models `[m, m2]`; relocating `m` to
a fresh file B and back leaves A with models `[m2, m]` — the model is
re-appended at the end, so A's content is not byte-identical after the
round trip. -/
theorem c7_counterexample :
    normalize_to_directory
        [("a.yml", .map [("models", .seq [.map [("name", .str "m")],
          .map [("name", .str "m2")]])])]
        "a.yml" "b.yml" "m" =
      .ok ([("a.yml", .map [("models", .seq [.map [("name", .str "m2")]])]),
        ("b.yml", .map [("models", .seq [.map [("name", .str "m")]])])],
        true) ∧
    normalize_to_directory
        [("a.yml", .map [("models", .seq [.map [("name", .str "m2")]])]),
          ("b.yml", .map [("models", .seq [.map [("name", .str "m")]])])]
        "b.yml" "a.yml" "m" =
      .ok ([("a.yml", .map [("models", .seq [.map [("name", .str "m2")],
        .map [("name", .str "m")]])])], true) ∧
    (([("a.yml", YVal.map [("models", .seq [.map [("name", .str "m2")],
        .map [("name", .str "m")]])])] : FS) ≠
      [("a.yml", .map [("models", .seq [.map [("name", .str "m")],
        .map [("name", .str "m2")]])])]) := by
  refine ⟨rfl, rfl, ?_⟩
  simp

/-- C7 (amended): relocating a model from A to a non-existent B and
back restores A exactly (and removes B again) when the model is the
last entry of A's models sequence and other models remain; in general
the returned model is re-appended at the end of the sequence, so a
model that was not last changes position and A is not byte-identical.
The model's own record is never altered by the round trip. -/
theorem c7_roundtrip_restores_when_last (fs : FS) (a b n : String)
    (kvs : List (String × YVal)) (ms : List YVal)
    (mkvs : List (String × YVal))
    (hfa : mget fs a = some (.map kvs))
    (hmod : mget kvs "models" = some (.seq (ms ++ [.map mkvs])))
    (hname : mget mkvs "name" = some (.str n))
    (hms : ms.all (fun e => !(entryMatches e n)) = true)
    (hne : ms ≠ [])
    (hfb : mget fs b = none)
    (hab : a ≠ b) :
    normalize_to_directory fs a b n =
      .ok (mset (mset fs a (.map (mset kvs "models" (.seq ms)))) b
        (.map [("models", .seq [.map mkvs])]), true) ∧
    normalize_to_directory
      (mset (mset fs a (.map (mset kvs "models" (.seq ms)))) b
        (.map [("models", .seq [.map mkvs])])) b a n =
      .ok (fs, true) := by
  have hkv : kvs ≠ [] := mget_some_ne_nil hmod
  have hmsne : ms.isEmpty = false := by
    cases hx : ms with
    | nil => exact absurd hx hne
    | cons e l => rfl
  have hrm : remove_model kvs n a = .ok (mset kvs "models" (.seq ms), mkvs) := by
    unfold remove_model
    rw [hmod]
    simp only [ensure_model_sequence,
      popFromModels_append_last mkvs hms hname, hmsne, Bool.false_eq_true,
      if_false]
  have hde1 : document_is_empty (mset kvs "models" (.seq ms)) = false := by
    unfold document_is_empty
    rw [mget_mset_self]
    simp [yFalsyOpt, yFalsy, hmsne]
  have hw1 : write_or_remove fs a (mset kvs "models" (.seq ms)) =
      mset fs a (.map (mset kvs "models" (.seq ms))) := by
    unfold write_or_remove
    rw [if_neg (by simp [hde1])]
  have hde1' : document_is_empty (mset [] "models" (.seq [.map mkvs])) =
      false := rfl
  have hw2 : ∀ g : FS, write_or_remove g b
      (mset [] "models" (.seq [.map mkvs])) =
      mset g b (.map (mset [] "models" (.seq [.map mkvs]))) := by
    intro g
    unfold write_or_remove
    rw [if_neg (by simp [hde1'])]
  constructor
  · unfold normalize_to_directory
    rw [if_neg (by simp [hfa])]
    rw [if_neg hab]
    simp only [load_document, hfa, loadOr_map hkv, hrm, hfb]
    show Except.ok (write_or_remove (write_or_remove fs a
      (mset kvs "models" (.seq ms))) b
      (mset [] "models" (.seq [.map mkvs])), true) = _
    rw [hw1, hw2]
    rfl
  · unfold normalize_to_directory
    rw [if_neg (by simp [mget_mset_self])]
    rw [if_neg (Ne.symm hab)]
    have hgb : mget (mset (mset fs a (.map (mset kvs "models" (.seq ms)))) b
        (.map [("models", .seq [.map mkvs])])) b =
        some (.map [("models", .seq [.map mkvs])]) := mget_mset_self _ _ _
    simp only [load_document, hgb,
      loadOr_map (show [("models", YVal.seq [.map mkvs])] ≠ [] by simp)]
    have hrm2 : remove_model [("models", YVal.seq [.map mkvs])] n b =
        .ok ([], mkvs) := by
      unfold remove_model
      rw [show mget [("models", YVal.seq [.map mkvs])] "models" =
        some (.seq [.map mkvs]) from rfl]
      simp only [ensure_model_sequence, popFromModels,
        matchKVs_of_name hname]
      rfl
    simp only [hrm2]
    have hga : mget (mset (mset fs a (.map (mset kvs "models" (.seq ms)))) b
        (.map [("models", .seq [.map mkvs])])) a =
        some (.map (mset kvs "models" (.seq ms))) := by
      rw [mget_mset_ne _ (Ne.symm hab), mget_mset_self]
    simp only [load_document, hga,
      loadOr_map (mset_ne_nil kvs "models" (.seq ms))]
    have hup : upsert_model (mset kvs "models" (.seq ms)) mkvs n =
        .ok kvs := by
      unfold upsert_model
      rw [mget_mset_self]
      show Except.ok (mset (mset kvs "models" (.seq ms)) "models"
        (.seq (upsertIntoModels ms mkvs n))) = _
      rw [upsertIntoModels_append mkvs hms, mset_mset, mset_self hmod]
    simp only [hup]
    have hw1 : write_or_remove (mset (mset fs a
        (.map (mset kvs "models" (.seq ms)))) b
        (.map [("models", .seq [.map mkvs])])) b [] =
        mset fs a (.map (mset kvs "models" (.seq ms))) := by
      unfold write_or_remove
      rw [if_pos (by simp [document_is_empty, mget, yFalsyOpt])]
      have habs : mget (mset fs a (.map (mset kvs "models" (.seq ms)))) b =
          none := by
        rw [mget_mset_ne _ hab]
        exact hfb
      rw [mset_absent_append habs]
      rw [mpop_append_self]
      exact mpop_absent habs
    rw [hw1]
    have hde2 : document_is_empty kvs = false := by
      unfold document_is_empty
      rw [hmod]
      simp [yFalsyOpt, yFalsy]
    unfold write_or_remove
    rw [if_neg (by simp [hde2])]
    rw [mset_mset]
    rw [mset_self hfa]

/-- C7 witness: a concrete round trip where the relocated model is the
last of two models in A and B does not exist: A and the whole
filesystem are restored exactly. -/
theorem c7_roundtrip_restores_when_last_witness :
    normalize_to_directory
        [("a.yml", .map [("models", .seq [.map [("name", .str "keep")],
          .map [("name", .str "move")]])])]
        "a.yml" "b.yml" "move" =
      .ok (mset (mset
        [("a.yml", .map [("models", .seq [.map [("name", .str "keep")],
          .map [("name", .str "move")]])])]
        "a.yml" (.map (mset [("models", .seq [.map [("name", .str "keep")],
          .map [("name", .str "move")]])] "models"
          (.seq [.map [("name", .str "keep")]])))) "b.yml"
        (.map [("models", .seq [.map [("name", .str "move")]])]), true) ∧
    normalize_to_directory
      (mset (mset
        [("a.yml", .map [("models", .seq [.map [("name", .str "keep")],
          .map [("name", .str "move")]])])]
        "a.yml" (.map (mset [("models", .seq [.map [("name", .str "keep")],
          .map [("name", .str "move")]])] "models"
          (.seq [.map [("name", .str "keep")]])))) "b.yml"
        (.map [("models", .seq [.map [("name", .str "move")]])]))
      "b.yml" "a.yml" "move" =
      .ok ([("a.yml", .map [("models", .seq [.map [("name", .str "keep")],
        .map [("name", .str "move")]])])], true) :=
  c7_roundtrip_restores_when_last
    [("a.yml", .map [("models", .seq [.map [("name", .str "keep")],
      .map [("name", .str "move")]])])]
    "a.yml" "b.yml" "move"
    [("models", .seq [.map [("name", .str "keep")],
      .map [("name", .str "move")]])]
    [.map [("name", .str "keep")]]
    [("name", .str "move")]
    rfl rfl rfl rfl (by simp) rfl (by simp)

end DbtLintYaml
